import Mathlib

/-!
Verification development for the Cobble meta-build generator.

The definitions below are a shallow embedding of the Python sources:
  * `cobble/__init__.py`  (Ident, Project, Package, Target, topo_merge,
    topo_sort, product)
  * `src/cobble/env.py`   (the evolved environment module: fingerprint_dict,
    Env, interpolate, freeze, the delta combinators)
  * `cobble/target/c.py`  (Program, Library, Preprocess target kinds)
  * `cobble/output.py`    (the product-deduplication pass of
    write_ninja_files)

Modelling conventions:
  * Python dicts are association lists `List (String × α)` in insertion
    order; dict assignment replaces the first binding of the key in place
    (or appends a new binding), deletion removes the binding, matching
    CPython's observable ordering semantics for the operations used.
  * Frozen environment values (string / number / Ident / tuple) are the
    inductive `PVal`.  Unfrozen Python values, as fed to `freeze`, are the
    inductive `PyVal`, whose `other` constructor stands for any
    non-iterable value that is neither a string, a number nor an Ident.
  * `fingerprint_dict` in the source is
    `sha1(str(sorted(d.iteritems()))).hexdigest()`.  SHA-1 is a fixed
    deterministic function of its input, so we model the digest by the
    canonical encoding of the key-sorted binding list itself (a collision
    of SHA-1 is assumed not to occur).  Because the keys of a dict are
    pairwise distinct, Python's sort of the (key, value) pairs never
    compares values, so sorting by key alone is an exact model.
  * Exceptions are the explicit error type `EvalErr`; Python-level
    divergence of the recursive evaluator is modelled with a fuel
    parameter, `EvalErr.fuelOut` marking fuel exhaustion.  The error
    constructors correspond exactly to the `raise` sites and the uncaught
    type errors of the source; the source has no cycle error of any kind.
-/

namespace Cobble

/-- Identifier of a target: `//package_relpath[:target_name]`
(`cobble/__init__.py`, class `Ident`).  Value-equal and hashable by the
pair of fields. -/
structure IdentS where
  package_relpath : String
  target_name : Option String
deriving DecidableEq, Repr

/-- Split a char list at a separator (Python `str.split` with a
one-char separator, written structurally so it reduces in the kernel). -/
def splitChar (sep : Char) : List Char → List (List Char)
  | [] => [[]]
  | c :: rest =>
      match splitChar sep rest with
      | g :: gs => if c = sep then [] :: g :: gs else (c :: g) :: gs
      | [] => [[]]

/-- Split a string at a one-char separator. -/
def splitStr (s : String) (sep : Char) : List String :=
  (splitChar sep s.data).map String.mk

/-- Prefix test on strings (`str.startswith`). -/
def strStartsWith (s pre : String) : Bool := pre.data.isPrefixOf s.data

/-- `os.path.basename` for the slash-separated relative paths used by
idents (no trailing slashes occur). -/
def basename (s : String) : String :=
  ((splitStr s '/').getLastD s)

/-- `Ident.target_name_or_default`: the explicit name, or the basename of
the package path when the name was elided. -/
def IdentS.target_name_or_default (i : IdentS) : String :=
  match i.target_name with
  | some n => n
  | none => basename i.package_relpath

/-- `Ident.__str__`: text form of an identifier. -/
def IdentS.text (i : IdentS) : String :=
  match i.target_name with
  | none => "//" ++ i.package_relpath
  | some n => "//" ++ i.package_relpath ++ ":" ++ n

/-- A frozen environment value (`src/cobble/env.py`): a string, a number,
an `Ident`, or a tuple of frozen values.  This is exactly the value
universe `freeze` produces. -/
inductive PVal where
  | str (s : String)
  | num (n : Int)
  | ident (i : IdentS)
  | tup (vs : List PVal)
deriving Repr

mutual

/-- Structural equality test on frozen values (Python `==`). -/
def PVal.beq : PVal → PVal → Bool
  | .str a, .str b => a == b
  | .num a, .num b => a == b
  | .ident a, .ident b => a == b
  | .tup as, .tup bs => PVal.beqs as bs
  | _, _ => false
termination_by structural a => a

/-- Elementwise equality test on lists of frozen values. -/
def PVal.beqs : List PVal → List PVal → Bool
  | [], [] => true
  | a :: as, b :: bs => PVal.beq a b && PVal.beqs as bs
  | _, _ => false
termination_by structural as => as

end

mutual

theorem PVal.beq_iff : ∀ a b : PVal, PVal.beq a b = true ↔ a = b
  | .str a, .str b => by simp [PVal.beq]
  | .num a, .num b => by simp [PVal.beq]
  | .ident a, .ident b => by simp [PVal.beq]
  | .tup as, .tup bs => by
      simp only [PVal.beq]
      rw [PVal.beqs_iff as bs]
      constructor
      · intro h; rw [h]
      · intro h; cases h; rfl
  | .str _, .num _ => by simp [PVal.beq]
  | .str _, .ident _ => by simp [PVal.beq]
  | .str _, .tup _ => by simp [PVal.beq]
  | .num _, .str _ => by simp [PVal.beq]
  | .num _, .ident _ => by simp [PVal.beq]
  | .num _, .tup _ => by simp [PVal.beq]
  | .ident _, .str _ => by simp [PVal.beq]
  | .ident _, .num _ => by simp [PVal.beq]
  | .ident _, .tup _ => by simp [PVal.beq]
  | .tup _, .str _ => by simp [PVal.beq]
  | .tup _, .num _ => by simp [PVal.beq]
  | .tup _, .ident _ => by simp [PVal.beq]
termination_by structural a => a

theorem PVal.beqs_iff : ∀ as bs : List PVal, PVal.beqs as bs = true ↔ as = bs
  | [], [] => by simp [PVal.beqs]
  | a :: as, b :: bs => by
      simp only [PVal.beqs, Bool.and_eq_true]
      rw [PVal.beq_iff a b, PVal.beqs_iff as bs]
      constructor
      · rintro ⟨h1, h2⟩; rw [h1, h2]
      · intro h; cases h; exact ⟨rfl, rfl⟩
  | [], _ :: _ => by simp [PVal.beqs]
  | _ :: _, [] => by simp [PVal.beqs]
termination_by structural as => as

end

instance : DecidableEq PVal := fun a b =>
  decidable_of_iff (PVal.beq a b = true) (PVal.beq_iff a b)

/-- The underlying dict of an `Env`: bindings in insertion order. -/
abbrev EnvD := List (String × PVal)

/-! ### String ordering

Python's `sorted` on dict items orders string keys bytewise.  The keys in
play are ASCII, for which codepoint-lexicographic order (below) agrees
with byte order.  We use our own comparator so that every sort is
computable by kernel reduction. -/

/-- Strict lexicographic order on char lists by codepoint. -/
def lexLt : List Char → List Char → Bool
  | [], [] => false
  | [], _ :: _ => true
  | _ :: _, [] => false
  | a :: as, b :: bs =>
      a.toNat < b.toNat || (a.toNat == b.toNat && lexLt as bs)

/-- Strict string order (Python `<` on strings, for ASCII data). -/
def strLt (a b : String) : Bool := lexLt a.data b.data

/-- Non-strict string order. -/
def strLe (a b : String) : Bool := strLt a b || a == b

theorem lexLt_irrefl : ∀ as : List Char, lexLt as as = false
  | [] => rfl
  | a :: as => by simp [lexLt, lexLt_irrefl as]

theorem lexLt_asymm : ∀ as bs : List Char,
    lexLt as bs = true → lexLt bs as = true → False
  | [], [], h1, _ => by simp [lexLt] at h1
  | [], _ :: _, _, h2 => by simp [lexLt] at h2
  | _ :: _, [], h1, _ => by simp [lexLt] at h1
  | a :: as, b :: bs, h1, h2 => by
      simp only [lexLt, Bool.or_eq_true, Bool.and_eq_true, beq_iff_eq,
        decide_eq_true_eq] at h1 h2
      rcases h1 with h1 | ⟨e1, h1⟩
      · rcases h2 with h2 | ⟨e2, _⟩
        · omega
        · omega
      · rcases h2 with h2 | ⟨_, h2⟩
        · omega
        · exact lexLt_asymm as bs h1 h2

theorem lexLt_trans : ∀ as bs cs : List Char,
    lexLt as bs = true → lexLt bs cs = true → lexLt as cs = true
  | [], [], _, h1, _ => by simp [lexLt] at h1
  | [], _ :: _, [], _, h2 => by simp [lexLt] at h2
  | [], _ :: _, _ :: _, _, _ => by simp [lexLt]
  | _ :: _, [], _, h1, _ => by simp [lexLt] at h1
  | _ :: _, _ :: _, [], _, h2 => by simp [lexLt] at h2
  | a :: as, b :: bs, c :: cs, h1, h2 => by
      simp only [lexLt, Bool.or_eq_true, Bool.and_eq_true, beq_iff_eq,
        decide_eq_true_eq] at h1 h2 ⊢
      rcases h1 with h1 | ⟨e1, h1⟩
      · rcases h2 with h2 | ⟨e2, _⟩
        · exact Or.inl (by omega)
        · exact Or.inl (by omega)
      · rcases h2 with h2 | ⟨e2, h2⟩
        · exact Or.inl (by omega)
        · exact Or.inr ⟨by omega, lexLt_trans as bs cs h1 h2⟩

theorem lexLt_total : ∀ as bs : List Char,
    lexLt as bs = true ∨ as = bs ∨ lexLt bs as = true
  | [], [] => Or.inr (Or.inl rfl)
  | [], _ :: _ => Or.inl (by simp [lexLt])
  | _ :: _, [] => Or.inr (Or.inr (by simp [lexLt]))
  | a :: as, b :: bs => by
      rcases Nat.lt_trichotomy a.toNat b.toNat with h | h | h
      · exact Or.inl (by simp [lexLt, h])
      · have hab : a = b := Char.eq_of_val_eq (UInt32.ext h)
        subst hab
        rcases lexLt_total as bs with h1 | h1 | h1
        · exact Or.inl (by simp [lexLt, h1])
        · exact Or.inr (Or.inl (by rw [h1]))
        · exact Or.inr (Or.inr (by simp [lexLt, h1]))
      · exact Or.inr (Or.inr (by simp [lexLt, h]))

theorem strLt_asymm {a b : String} (h1 : strLt a b = true)
    (h2 : strLt b a = true) : False :=
  lexLt_asymm a.data b.data h1 h2

theorem strLt_trans {a b c : String} (h1 : strLt a b = true)
    (h2 : strLt b c = true) : strLt a c = true :=
  lexLt_trans a.data b.data c.data h1 h2

theorem strLt_total (a b : String) :
    strLt a b = true ∨ a = b ∨ strLt b a = true := by
  rcases lexLt_total a.data b.data with h | h | h
  · exact Or.inl h
  · exact Or.inr (Or.inl (String.ext h))
  · exact Or.inr (Or.inr h)

theorem strLe_iff {a b : String} :
    strLe a b = true ↔ strLt a b = true ∨ a = b := by
  simp [strLe, Bool.or_eq_true, beq_iff_eq]

/-! ### Sorting dict items and the digest (`fingerprint_dict`) -/

/-- Order on dict items used by `sorted(d.iteritems())`: by key.  Dict
keys are pairwise distinct, so Python's pair comparison never reaches the
values and key order alone determines the sort. -/
def pairLe (a b : String × PVal) : Prop := strLe a.1 b.1 = true

instance : DecidableRel pairLe := fun a b =>
  inferInstanceAs (Decidable (strLe a.1 b.1 = true))
instance : IsTotal (String × PVal) pairLe :=
  ⟨fun a b => by
    rcases strLt_total a.1 b.1 with h | h | h
    · exact Or.inl (strLe_iff.mpr (Or.inl h))
    · exact Or.inl (strLe_iff.mpr (Or.inr h))
    · exact Or.inr (strLe_iff.mpr (Or.inl h))⟩
instance : IsTrans (String × PVal) pairLe :=
  ⟨fun a b c h1 h2 => by
    rcases strLe_iff.mp h1 with h1 | h1 <;> rcases strLe_iff.mp h2 with h2 | h2
    · exact strLe_iff.mpr (Or.inl (strLt_trans h1 h2))
    · exact strLe_iff.mpr (Or.inl (h2 ▸ h1))
    · exact strLe_iff.mpr (Or.inl (h1 ▸ h2))
    · exact strLe_iff.mpr (Or.inr (h1.trans h2))⟩

/-- The key-sorted binding list of a dict (`sorted(d.iteritems())`). -/
def sortPairs (d : EnvD) : EnvD := d.insertionSort pairLe

mutual

/-- Canonical rendering of a frozen value, standing in for the byte
encoding (`str`) the source feeds to the hash. -/
def encodeVal : PVal → String
  | .str s => "s" ++ s
  | .num n => "n" ++ toString n
  | .ident i => "t" ++ i.text
  | .tup vs => "(" ++ encodeList vs ++ ")"
termination_by structural v => v

/-- Comma-separated rendering of a list of frozen values. -/
def encodeList : List PVal → String
  | [] => ""
  | [v] => encodeVal v
  | v :: vs => encodeVal v ++ "," ++ encodeList vs
termination_by structural vs => vs

end

/-- One rendered `key=value` binding. -/
def encodePair (p : String × PVal) : String := p.1 ++ "=" ++ encodeVal p.2

/-- `fingerprint_dict` (`src/cobble/env.py` lines 8-15):
`sha1(str(sorted(d.iteritems()))).hexdigest()`.  The SHA-1 step is a
fixed function of the canonical byte string, so digests of equal byte
strings are equal; we model the digest as the canonical rendering of the
key-sorted binding list. -/
def fingerprint_dict (d : EnvD) : String :=
  String.intercalate "|" ((sortPairs d).map encodePair)

/-- `Env.digest`: memoized `fingerprint_dict` of the underlying dict. -/
def digest (d : EnvD) : String := fingerprint_dict d

/-- A dict has pairwise-distinct keys (true of every Python dict). -/
def NodupKeys (d : EnvD) : Prop := (d.map Prod.fst).Nodup

instance : DecidablePred NodupKeys := fun d =>
  inferInstanceAs (Decidable (d.map Prod.fst).Nodup)

theorem sortPairs_perm (d : EnvD) : (sortPairs d).Perm d :=
  List.perm_insertionSort pairLe d

theorem sortPairs_sorted (d : EnvD) : List.Sorted pairLe (sortPairs d) :=
  List.sorted_insertionSort pairLe d

/-- Key-sorted binding lists of set-equal dicts coincide. -/
theorem sortPairs_eq_of_perm {d1 d2 : EnvD} (hp : d1.Perm d2)
    (h1 : NodupKeys d1) : sortPairs d1 = sortPairs d2 := by
  have strict : IsAntisymm (String × PVal) (fun a b => strLt a.1 b.1 = true) :=
    ⟨fun a b hab hba => absurd (strLt_asymm hab hba) not_false⟩
  have perm12 : (sortPairs d1).Perm (sortPairs d2) :=
    ((sortPairs_perm d1).trans hp).trans (sortPairs_perm d2).symm
  have keyNe1 : List.Pairwise (fun a b : String × PVal => a.1 ≠ b.1) (sortPairs d1) := by
    have : NodupKeys (sortPairs d1) := by
      unfold NodupKeys
      exact ((sortPairs_perm d1).map Prod.fst).nodup_iff.mpr h1
    unfold NodupKeys at this
    exact (List.pairwise_map).mp this
  have keyNe2 : List.Pairwise (fun a b : String × PVal => a.1 ≠ b.1) (sortPairs d2) := by
    have h2 : NodupKeys d2 := by
      unfold NodupKeys at h1 ⊢
      exact (hp.map Prod.fst).nodup_iff.mp h1
    have : NodupKeys (sortPairs d2) := by
      unfold NodupKeys
      exact ((sortPairs_perm d2).map Prod.fst).nodup_iff.mpr h2
    unfold NodupKeys at this
    exact (List.pairwise_map).mp this
  have s1 : List.Pairwise (fun a b : String × PVal => strLt a.1 b.1 = true) (sortPairs d1) := by
    have := (sortPairs_sorted d1).and keyNe1
    exact this.imp (fun {a b} h => by
      rcases strLe_iff.mp h.1 with hlt | heq
      · exact hlt
      · exact absurd heq h.2)
  have s2 : List.Pairwise (fun a b : String × PVal => strLt a.1 b.1 = true) (sortPairs d2) := by
    have := (sortPairs_sorted d2).and keyNe2
    exact this.imp (fun {a b} h => by
      rcases strLe_iff.mp h.1 with hlt | heq
      · exact hlt
      · exact absurd heq h.2)
  exact List.eq_of_perm_of_sorted perm12 s1 s2

/-! ### Freezing (`src/cobble/env.py`, `freeze`) -/

/-- Errors of the modelled run, each mirroring a `raise` site or an
uncaught Python-level type error of the source.  There is, deliberately,
no cycle-error constructor: the source has no cycle detection. -/
inductive EvalErr where
  | fuelOut
  | unknownTarget (i : IdentS)
  | unknownEnv (name : String)
  | noneEnv
  | badDepRef
  | interpolationMissingKey (k : String)
  | typeError
  | badFormat
  | unknownFileType (ext : String)
  | invalidEnvValue (tyName : String)
  | incompatibleProducts
deriving DecidableEq, Repr

/-- An arbitrary Python value as it may be handed to `freeze`: a string,
a number, an `Ident`, a sequence (list or tuple — both are
`collections.Iterable`), or a non-iterable value of any other type
(`other`, tagged with its type name). -/
inductive PyVal where
  | str (s : String)
  | num (n : Int)
  | ident (i : IdentS)
  | seq (isTup : Bool) (vs : List PyVal)
  | other (tyName : String)
deriving Repr

mutual

/-- `freeze` (`src/cobble/env.py` lines 111-121): strings and numbers
pass through, iterables become tuples of frozen elements, `Ident`s pass
through, anything else raises "Invalid type in environment". -/
def freeze : PyVal → Except EvalErr PVal
  | .str s => .ok (.str s)
  | .num n => .ok (.num n)
  | .seq _ vs =>
      match freezes vs with
      | .ok ws => .ok (.tup ws)
      | .error e => .error e
  | .ident i => .ok (.ident i)
  | .other tyName => .error (.invalidEnvValue tyName)
termination_by structural v => v

/-- Freezing of the elements of an iterable, failing at the first bad
element. -/
def freezes : List PyVal → Except EvalErr (List PVal)
  | [] => .ok []
  | v :: vs =>
      match freeze v, freezes vs with
      | .ok w, .ok ws => .ok (w :: ws)
      | .error e, _ => .error e
      | .ok _, .error e => .error e
termination_by structural vs => vs

end

mutual

/-- Whether a Python value contains no rejected (`other`) component. -/
def noOther : PyVal → Bool
  | .str _ => true
  | .num _ => true
  | .ident _ => true
  | .seq _ vs => noOthers vs
  | .other _ => false
termination_by structural v => v

/-- `noOther` over the elements of a sequence. -/
def noOthers : List PyVal → Bool
  | [] => true
  | v :: vs => noOther v && noOthers vs
termination_by structural vs => vs

end

mutual

/-- The frozen image of a well-formed Python value: identity on strings,
numbers and idents, tuples of frozen elements for sequences. -/
def stripPy : PyVal → PVal
  | .str s => .str s
  | .num n => .num n
  | .ident i => .ident i
  | .seq _ vs => .tup (strips vs)
  | .other _ => .tup []
termination_by structural v => v

/-- `stripPy` over the elements of a sequence. -/
def strips : List PyVal → List PVal
  | [] => []
  | v :: vs => stripPy v :: strips vs
termination_by structural vs => vs

end

theorem strips_eq_map : ∀ vs : List PyVal, strips vs = vs.map stripPy
  | [] => rfl
  | v :: vs => by simp [strips, strips_eq_map vs]

mutual

theorem freeze_ok : ∀ v : PyVal, noOther v = true → freeze v = .ok (stripPy v)
  | .str _, _ => rfl
  | .num _, _ => rfl
  | .ident _, _ => rfl
  | .seq _ vs, h => by
      simp only [noOther] at h
      simp only [freeze, stripPy, freezes_ok vs h]
  | .other _, h => by simp [noOther] at h
termination_by structural v => v

theorem freezes_ok : ∀ vs : List PyVal, noOthers vs = true →
    freezes vs = .ok (strips vs)
  | [], _ => rfl
  | v :: vs, h => by
      simp only [noOthers, Bool.and_eq_true] at h
      simp only [freezes, strips, freeze_ok v h.1, freezes_ok vs h.2]
termination_by structural vs => vs

end

mutual

theorem freeze_err : ∀ v : PyVal, noOther v = false →
    ∃ t, freeze v = .error (.invalidEnvValue t)
  | .str _, h => by simp [noOther] at h
  | .num _, h => by simp [noOther] at h
  | .ident _, h => by simp [noOther] at h
  | .seq b vs, h => by
      simp only [noOther] at h
      obtain ⟨t, ht⟩ := freezes_err vs h
      exact ⟨t, by simp [freeze, ht]⟩
  | .other t, _ => ⟨t, rfl⟩
termination_by structural v => v

theorem freezes_err : ∀ vs : List PyVal, noOthers vs = false →
    ∃ t, freezes vs = .error (.invalidEnvValue t)
  | [], h => by simp [noOthers] at h
  | v :: vs, h => by
      simp only [noOthers, Bool.and_eq_false_iff] at h
      rcases h with h | h
      · obtain ⟨t, ht⟩ := freeze_err v h
        exact ⟨t, by simp [freezes, ht]⟩
      · cases hv : freeze v with
        | error e =>
            have hn : noOther v = false := by
              by_contra hc
              have : noOther v = true := by
                cases hx : noOther v
                · exact absurd hx hc
                · rfl
              rw [freeze_ok v this] at hv
              cases hv
            obtain ⟨t, ht⟩ := freeze_err v hn
            exact ⟨t, by simp [freezes, ht]⟩
        | ok w =>
            obtain ⟨t, ht⟩ := freezes_err vs h
            exact ⟨t, by simp [freezes, hv, ht]⟩
termination_by structural vs => vs

end

/-! ### Python dict primitives on association lists -/

section DictOps

variable {V : Type}

/-- Dict lookup `d[k]` / `d.get(k)`. -/
def lookupS : List (String × V) → String → Option V
  | [], _ => none
  | (k0, v0) :: d, k => if k0 == k then some v0 else lookupS d k

/-- Dict assignment `d[k] = v`: replaces the binding in place, or appends
a new binding. -/
def setS : List (String × V) → String → V → List (String × V)
  | [], k, v => [(k, v)]
  | (k0, v0) :: d, k, v =>
      if k0 == k then (k, v) :: d else (k0, v0) :: setS d k v

/-- Dict deletion `del d[k]`: removes the (unique) binding of `k`. -/
def delS : List (String × V) → String → List (String × V)
  | [], _ => []
  | (k0, v0) :: d, k => if k0 == k then d else (k0, v0) :: delS d k

end DictOps

/-! ### Interpolation (`src/cobble/env.py`, `interpolate`)

`value % d` for strings.  The recognizer handles the `%(key)s` spans and
`%%` escapes that the source relies on; any other conversion raises,
modelled by `EvalErr.badFormat`.  A missing key raises the descriptive
"Environment key ... not found" error. -/

mutual

/-- Python `str()` of a frozen value (used when a `%(key)s` span
substitutes a non-string value). -/
def pyStr : PVal → String
  | .str s => s
  | .num n => toString n
  | .ident i => i.text
  | .tup vs => "(" ++ pyReprList vs ++ (if vs.length == 1 then ",)" else ")")

/-- Python `repr()` of a frozen value (tuple elements render with
`repr`). -/
def pyRepr : PVal → String
  | .str s => "'" ++ s ++ "'"
  | .num n => toString n
  | .ident i => "cobble.Ident(\"" ++ i.text ++ "\")"
  | .tup vs => "(" ++ pyReprList vs ++ (if vs.length == 1 then ",)" else ")")
termination_by structural v => v

/-- Comma-separated `repr`s of tuple elements. -/
def pyReprList : List PVal → String
  | [] => ""
  | [v] => pyRepr v
  | v :: vs => pyRepr v ++ ", " ++ pyReprList vs
termination_by structural vs => vs

end

/-- State of the `%`-format scanner. -/
inductive FmtMode where
  | plain
  | afterPercent
  | inKey (acc : List Char)
  | expectS (key : List Char)

/-- One-pass scanner for `s % d`. -/
def interpGo (d : EnvD) : List Char → FmtMode → Except EvalErr (List Char)
  | [], .plain => .ok []
  | [], _ => .error .badFormat
  | c :: rest, .plain =>
      if c = '%' then interpGo d rest .afterPercent
      else (interpGo d rest .plain).map (c :: ·)
  | c :: rest, .afterPercent =>
      if c = '%' then (interpGo d rest .plain).map ('%' :: ·)
      else if c = '(' then interpGo d rest (.inKey [])
      else .error .badFormat
  | c :: rest, .inKey acc =>
      if c = ')' then interpGo d rest (.expectS acc.reverse)
      else interpGo d rest (.inKey (c :: acc))
  | c :: rest, .expectS key =>
      if c = 's' then
        let ks := String.mk key
        match lookupS d ks with
        | some v => (interpGo d rest .plain).map ((pyStr v).data ++ ·)
        | none => .error (.interpolationMissingKey ks)
      else .error .badFormat

/-- `s % d` on a string value. -/
def interpStr (d : EnvD) (s : String) : Except EvalErr String :=
  (interpGo d s.data .plain).map String.mk

mutual

/-- `interpolate` (`src/cobble/env.py` lines 95-108): `%`-expand strings
against the current dict, recurse elementwise into iterables, pass
numbers and idents through. -/
def interpolate (d : EnvD) : PVal → Except EvalErr PVal
  | .str s =>
      match interpStr d s with
      | .ok t => .ok (.str t)
      | .error e => .error e
  | .tup vs =>
      match interpolates d vs with
      | .ok ws => .ok (.tup ws)
      | .error e => .error e
  | .num n => .ok (.num n)
  | .ident i => .ok (.ident i)
termination_by structural v => v

/-- Elementwise interpolation of a sequence value. -/
def interpolates (d : EnvD) : List PVal → Except EvalErr (List PVal)
  | [] => .ok []
  | v :: vs =>
      match interpolate d v, interpolates d vs with
      | .ok w, .ok ws => .ok (w :: ws)
      | .error e, _ => .error e
      | .ok _, .error e => .error e
termination_by structural vs => vs

end

/-- Python `+` on frozen values: concatenation of strings or tuples,
addition of numbers, `TypeError` otherwise (in particular for the
mixed-type combinations). -/
def pyAdd : PVal → PVal → Except EvalErr PVal
  | .str a, .str b => .ok (.str (a ++ b))
  | .num a, .num b => .ok (.num (a + b))
  | .tup a, .tup b => .ok (.tup (a ++ b))
  | _, _ => .error .typeError

/-- Python truthiness of a frozen value (`if v:`). -/
def pyTruthy : PVal → Bool
  | .str s => !(s == "")
  | .num n => !(n == 0)
  | .ident _ => true
  | .tup vs => !vs.isEmpty

/-! ### The delta algebra (`src/cobble/env.py`) -/

/-- A single environment mutation, as produced by the combinator
functions `append`, `prepend`, `override`, `remove`, `subset` and
`make_delta_conditional` of `src/cobble/env.py`.  `conditional` wraps one
inner change together with the predicate guarding it, exactly as
`make_delta_conditional` wraps each element of a delta. -/
inductive DeltaOp where
  | append (k : String) (v : PVal)
  | prepend (k : String) (v : PVal)
  | override (k : String) (v : PVal)
  | remove (k : String)
  | subsetKeys (ks : List String)
  | conditional (op : DeltaOp) (pred : EnvD → Bool)

/-- A delta: a sequence of mutations applied left to right. -/
abbrev Delta := List DeltaOp

/-- Application of one mutation to a dict.  Interpolation happens against
the current dict; `append`/`prepend` concatenate with an existing value
via Python `+`.  (Values are already in frozen form, on which the
source's `freeze` call is the identity.) -/
def applyOp : EnvD → DeltaOp → Except EvalErr EnvD
  | d, .append k v =>
      match lookupS d k with
      | none =>
          match interpolate d v with
          | .ok w => .ok (setS d k w)
          | .error e => .error e
      | some cur =>
          match interpolate d v with
          | .ok w =>
              match pyAdd cur w with
              | .ok s => .ok (setS d k s)
              | .error e => .error e
          | .error e => .error e
  | d, .prepend k v =>
      match lookupS d k with
      | none =>
          match interpolate d v with
          | .ok w => .ok (setS d k w)
          | .error e => .error e
      | some cur =>
          match interpolate d v with
          | .ok w =>
              match pyAdd w cur with
              | .ok s => .ok (setS d k s)
              | .error e => .error e
          | .error e => .error e
  | d, .override k v =>
      match interpolate d v with
      | .ok w => .ok (setS d k w)
      | .error e => .error e
  | d, .remove k => .ok (if (lookupS d k).isSome then delS d k else d)
  | d, .subsetKeys ks => .ok (d.filter (fun p => ks.contains p.1))
  | d, .conditional op pred => if pred d then applyOp d op else .ok d

/-- `Env.derive`: apply a delta to (a copy of) the dict, yielding the new
env's dict. -/
def derive (d : EnvD) (delta : Delta) : Except EvalErr EnvD :=
  delta.foldlM applyOp d

/-- `Env.subset`: the sub-dict at the given keys (in key-list order). -/
def subsetEnv (d : EnvD) (ks : List String) : EnvD :=
  ks.filterMap (fun k => (lookupS d k).map (fun v => (k, v)))

/-- `make_appending_delta`. -/
def make_appending_delta (kw : List (String × PVal)) : Delta :=
  kw.map (fun p => .append p.1 p.2)

/-- `make_prepending_delta`. -/
def make_prepending_delta (kw : List (String × PVal)) : Delta :=
  kw.map (fun p => .prepend p.1 p.2)

/-- `make_delta_conditional`: wrap every change of a delta under the
predicate. -/
def make_delta_conditional (delta : Delta) (pred : EnvD → Bool) : Delta :=
  delta.map (fun op => .conditional op pred)

/-- `Env.__eq__` (`src/cobble/env.py` lines 91-92): digest equality
conjoined with dict equality.  Dict equality of nodup-keyed dicts is
equality of the key-sorted binding lists. -/
def envBeq (d1 d2 : EnvD) : Bool :=
  (digest d1 == digest d2) && (sortPairs d1 == sortPairs d2)

/-- The up-environment of an evaluation: an `Env`, or Python `None` (the
seed used for leaf targets by `write_ninja_files`). -/
abbrev OEnv := Option EnvD

/-- Equality on optional envs (`None == None`, envs by `Env.__eq__`). -/
def oenvBeq : OEnv → OEnv → Bool
  | none, none => true
  | some a, some b => envBeq a b
  | _, _ => false

theorem envBeq_iff {d1 d2 : EnvD} :
    envBeq d1 d2 = true ↔ sortPairs d1 = sortPairs d2 := by
  unfold envBeq digest fingerprint_dict
  constructor
  · intro h
    simp only [Bool.and_eq_true, beq_iff_eq] at h
    exact h.2
  · intro h
    simp [h]

/-! ### Product records (`cobble/__init__.py`, `product`) -/

/-- A build product: the keyword arguments handed to the Ninja writer's
`build` method.  `none` in `inputs`, `implicit` and `order_only` models
the absence of the key (the source's `None`-valued `inputs` and a missing
`inputs` key are not distinguished; no claim observes the difference). -/
structure ProductRecord where
  outputs : List String
  rule : String
  inputs : Option (List String)
  implicit : Option PVal
  order_only : Option PVal
  /-- the source's `variables` field (that word is reserved in Lean) -/
  vars : EnvD
deriving DecidableEq, Repr

/-- The helper `_process` inside `product`: combine a caller-supplied
list with the env's reserved-key value and store it only when truthy. -/
def processField (v : Option PVal) (ek : String) (env : EnvD) :
    Except EvalErr (Option PVal) :=
  match v with
  | none =>
      match lookupS env ek with
      | some x => .ok (if pyTruthy x then some x else none)
      | none => .ok none
  | some x =>
      match pyAdd x ((lookupS env ek).getD (.tup [])) with
      | .ok c => .ok (if pyTruthy c then some c else none)
      | .error e => .error e

/-- `product` (`cobble/__init__.py` lines 321-345): build a product
record from an env; `variables` is the env with the two reserved keys
removed, `implicit`/`order_only` combine the caller's list with
`env.get('__implicit__')` / `env.get('__order_only__')`. -/
def product (env : EnvD) (outputs : List String) (rule : String)
    (inputs : Option (List String)) (implicit : Option PVal)
    (order_only : Option PVal) : Except EvalErr ProductRecord := do
  let vars ← derive env [.remove "__implicit__", .remove "__order_only__"]
  let imp ← processField implicit "__implicit__" env
  let oo ← processField order_only "__order_only__" env
  pure { outputs := outputs, rule := rule, inputs := inputs,
         implicit := imp, order_only := oo, vars := vars }

/-! ### Product deduplication (`cobble/output.py`, `write_ninja_files`) -/

/-- Non-strict string order as a `Prop`, for sorting output lists. -/
def strLeP (a b : String) : Prop := strLe a b = true

instance : DecidableRel strLeP := fun a b =>
  inferInstanceAs (Decidable (strLe a b = true))
instance : IsTotal String strLeP :=
  ⟨fun a b => by
    rcases strLt_total a b with h | h | h
    · exact Or.inl (strLe_iff.mpr (Or.inl h))
    · exact Or.inl (strLe_iff.mpr (Or.inr h))
    · exact Or.inr (strLe_iff.mpr (Or.inl h))⟩
instance : IsTrans String strLeP :=
  ⟨fun a b c h1 h2 => by
    rcases strLe_iff.mp h1 with h1 | h1 <;> rcases strLe_iff.mp h2 with h2 | h2
    · exact strLe_iff.mpr (Or.inl (strLt_trans h1 h2))
    · exact strLe_iff.mpr (Or.inl (h2 ▸ h1))
    · exact strLe_iff.mpr (Or.inl (h1 ▸ h2))
    · exact strLe_iff.mpr (Or.inr (h1.trans h2))⟩

/-- `sorted` on a list of strings. -/
def sortStrings (l : List String) : List String := l.insertionSort strLeP

/-- The deduplication key: `' '.join(sorted(product['outputs']))`. -/
def productKey (p : ProductRecord) : String :=
  String.intercalate " " (sortStrings p.outputs)

/-- Python `!=` on two product dicts: fieldwise, with the `variables`
sub-dict compared order-insensitively (dict equality). -/
def prodBeq (p q : ProductRecord) : Bool :=
  p.outputs == q.outputs && p.rule == q.rule && p.inputs == q.inputs &&
  p.implicit == q.implicit && p.order_only == q.order_only &&
  (sortPairs p.vars == sortPairs q.vars)

/-- The first pass of `write_ninja_files` (`cobble/output.py` lines
45-57) over the flat product stream: deduplicate by `productKey`,
keeping the first record of each key, and fail with "Duplicate products
with non-matching rules!" when a key recurs with a non-equal record. -/
def dedupe : List ProductRecord → List (String × ProductRecord) →
    Except EvalErr (List (String × ProductRecord))
  | [], acc => .ok acc
  | p :: ps, acc =>
      match lookupS acc (productKey p) with
      | some q => if prodBeq p q then dedupe ps acc else .error .incompatibleProducts
      | none => dedupe ps (setS acc (productKey p) p)

/-! ### Paths (`os.path` helpers, `Project`/`Package` path methods) -/

/-- `os.path.join` for the relative, slash-separated paths in play. -/
def joinPath (parts : List String) : String := String.intercalate "/" parts

/-- `os.path.dirname`. -/
def dirname (s : String) : String :=
  let ps := splitStr s '/'
  if ps.length ≤ 1 then "" else joinPath ps.dropLast

/-- `os.path.relpath` for already-normalized relative paths: strip the
common prefix, then climb out of the rest of `start`. -/
def relpathGo : List String → List String → String
  | p :: ps, s :: ss =>
      if p == s then relpathGo ps ss
      else joinPath (List.replicate (ss.length + 1) ".." ++ (p :: ps))
  | ps, ss => joinPath (List.replicate ss.length ".." ++ ps)

/-- `os.path.relpath path start`. -/
def relpath (path start : String) : String :=
  relpathGo (splitStr path '/') (splitStr start '/')

/-- The extension part of `os.path.splitext` (with the dot). -/
def extOf (s : String) : String :=
  let parts := splitStr (basename s) '.'
  match parts with
  | [] => ""
  | [_] => ""
  | p :: rest => if p == "" && rest.length == 1 then "" else "." ++ rest.getLastD ""

/-! ### Project, Package and Target (`cobble/__init__.py`) -/

/-- The kind-specific part of a target, the sum of the target classes of
`cobble/target/c.py` plus the base-class behavior (`generic`).  Each
constructor carries the construction-time data of its class. -/
inductive TargetKind where
  | generic
  | program (environment : String) (extra_delta : Delta)
  | library (using_delta : Delta)
  | preprocess (source output : String)

/-- A target: its package relpath, its name, its kind, and its
`_local_delta` (empty for kinds that do not define one). -/
structure TargetRec where
  pkg : String
  name : String
  kind : TargetKind
  local_delta : Delta

/-- `Target.identifier`: `Ident(package.relpath, name)`. -/
def TargetRec.identifier (t : TargetRec) : IdentS :=
  ⟨t.pkg, some t.name⟩

/-- `Target._transparent`: `True` by default, `False` for `Program`. -/
def TargetRec.transparent (t : TargetRec) : Bool :=
  match t.kind with
  | .program _ _ => false
  | _ => true

/-- A loaded project: roots, named environments, and the targets of all
packages (package structure flattened; target identifiers are unique
across a loaded project). -/
structure ProjectR where
  root : String
  outroot : String
  named_envs : List (String × EnvD)
  targets : List TargetRec

/-- `Project.find_target`: look a target up by identifier, failing with
"No such target". -/
def find_target (P : ProjectR) (i : IdentS) : Except EvalErr TargetRec :=
  match P.targets.find? (fun t =>
      t.pkg == i.package_relpath && t.name == i.target_name_or_default) with
  | some t => .ok t
  | none => .error (.unknownTarget i)

/-- `Package.outpath`: `<outroot>/env/<digest>/<pkg>/<parts>`. -/
def outpathT (P : ProjectR) (t : TargetRec) (env : EnvD) (parts : List String) : String :=
  joinPath ([P.outroot, "env", digest env, t.pkg] ++ parts)

/-- `Package.leafpath`: `<outroot>/latest/<pkg>/<parts>`. -/
def leafpathT (P : ProjectR) (t : TargetRec) (parts : List String) : String :=
  joinPath ([P.outroot, "latest", t.pkg] ++ parts)

/-- `Package.genpath`: `<outroot>/gen/<pkg>/<parts>`. -/
def genpathT (P : ProjectR) (t : TargetRec) (parts : List String) : String :=
  joinPath ([P.outroot, "gen", t.pkg] ++ parts)

/-- `Package.inpath`: `@` redirects into the gen tree, `//` to the
project root, else under the package's source directory. -/
def inpathT (P : ProjectR) (t : TargetRec) (path : String) : String :=
  if strStartsWith path "@" then joinPath [P.outroot, "gen", String.mk (path.data.drop 1)]
  else if strStartsWith path "//" then joinPath [P.root, String.mk (path.data.drop 2)]
  else joinPath [P.root, t.pkg, path]

/-! ### Topological merge and sort (`cobble/__init__.py`) -/

/-- A key of the evaluation mappings: the `(target, env_up)` pair,
targets standing by their (unique) identifier. -/
abbrev DKey := IdentS × OEnv

/-- Python `==` on mapping keys: identifiers by value, envs by
`Env.__eq__`. -/
def dkeyBeq (a b : DKey) : Bool := a.1 == b.1 && oenvBeq a.2 b.2

section KeyedOps

variable {V : Type}

/-- Mapping lookup keyed by `dkeyBeq`. -/
def lookupK : List (DKey × V) → DKey → Option V
  | [], _ => none
  | (k0, v0) :: m, k => if dkeyBeq k0 k then some v0 else lookupK m k

/-- Mapping assignment keyed by `dkeyBeq`; like a Python dict it keeps
the originally-inserted key object on overwrite. -/
def setK : List (DKey × V) → DKey → V → List (DKey × V)
  | [], k, v => [(k, v)]
  | (k0, v0) :: m, k, v =>
      if dkeyBeq k0 k then (k0, v) :: m else (k0, v0) :: setK m k v

end KeyedOps

/-- The first result mapping of an evaluation:
`(target, env_up) -> (rank, using_delta)`. -/
abbrev DepMap := List (DKey × (Nat × Delta))

/-- The second result mapping: `(target, env_up) -> [product]`. -/
abbrev ProdMap := List (DKey × List ProductRecord)

/-- One step of `topo_merge`'s loop: increment the incoming rank, take
the max with an already-merged rank for the same key, store. -/
def topoStep (merged : DepMap) (p : DKey × (Nat × Delta)) : DepMap :=
  let rank1 := p.2.1 + 1
  let rank2 :=
    match lookupK merged p.1 with
    | some ru => max rank1 ru.1
    | none => rank1
  setK merged p.1 (rank2, p.2.2)

/-- `topo_merge` (`cobble/__init__.py` lines 302-310). -/
def topo_merge (dicts : List DepMap) : DepMap :=
  (dicts.flatten).foldl topoStep []

/-- The digest component of a sort key; `none` is unreachable in a sort
that succeeds (a `None` env would raise). -/
def odigestD : OEnv → String
  | some d => digest d
  | none => ""

/-- The sort key order of `topo_sort`: by rank, then target identifier,
then env digest.  (The source's fourth component, the using-delta, is
compared only between entries of one target with digest-equal envs,
which a mapping cannot contain; identifiers of distinct targets are
unique, so identifier text order is a faithful stand-in for the
source's in-process object order.) -/
def sortEntryLeB (a b : DKey × (Nat × Delta)) : Bool :=
  if a.2.1 < b.2.1 then true
  else if b.2.1 < a.2.1 then false
  else if strLt a.1.1.text b.1.1.text then true
  else if strLt b.1.1.text a.1.1.text then false
  else strLe (odigestD a.1.2) (odigestD b.1.2)

/-- `sortEntryLeB` as a `Prop` relation for `insertionSort`. -/
def sortEntryLe (a b : DKey × (Nat × Delta)) : Prop := sortEntryLeB a b = true

instance : DecidableRel sortEntryLe := fun a b =>
  inferInstanceAs (Decidable (sortEntryLeB a b = true))

/-- `topo_sort` (`cobble/__init__.py` lines 313-318): the mapping's
entries ordered by `(rank, identifier, digest)`.  Computing the sort key
of an entry whose env is `None` raises (`None` has no `digest`). -/
def topo_sort (m : DepMap) : Except EvalErr DepMap :=
  if m.all (fun entry => entry.1.2.isSome) then .ok (m.insertionSort sortEntryLe)
  else .error .noneEnv

/-! ### Target behaviors (`cobble/target/c.py`) -/

/-- `_compile_keys`. -/
def compile_keys : List String := ["__order_only__", "c_depswitch"]
/-- `_link_keys`. -/
def link_keys : List String := ["__implicit__", "cc", "link_srcs", "link_flags"]
/-- `_archive_keys`. -/
def archive_keys : List String := ["ar", "ranlib"]
/-- `_preprocess_keys`. -/
def preprocess_keys : List String := ["cpp", "cpp_flags", "c_depswitch"]

/-- `CCompTarget._file_type_map`, with the `KeyError` for an unknown
extension made explicit. -/
def file_type_map (ext : String) : Except EvalErr (String × List String) :=
  if ext == ".c" then .ok ("compile_c_obj", ["cc", "c_flags"])
  else if ext == ".cc" then .ok ("compile_cxx_obj", ["cxx", "cxx_flags"])
  else if ext == ".cpp" then .ok ("compile_cxx_obj", ["cxx", "cxx_flags"])
  else if ext == ".S" then .ok ("assemble_obj_pp", ["aspp", "aspp_flags"])
  else .error (.unknownFileType ext)

/-- `CTarget._deps_delta`: override `c_depswitch` according to the
truthiness of `c_deps_include_system` (default `True`). -/
def deps_delta (env : EnvD) : Delta :=
  match lookupS env "c_deps_include_system" with
  | some v =>
      if pyTruthy v then [.override "c_depswitch" (.str "-MD")]
      else [.override "c_depswitch" (.str "-MMD")]
  | none => [.override "c_depswitch" (.str "-MD")]

/-- Extract `env.get('sources', [])` as a string list; iterating a
string value yields its one-character substrings, a non-iterable raises. -/
def getSources (env : EnvD) : Except EvalErr (List String) :=
  match lookupS env "sources" with
  | none => .ok []
  | some (.tup vs) =>
      vs.mapM (fun v =>
        match v with
        | .str s => .ok s
        | _ => .error .typeError)
  | some (.str s) => .ok (s.data.map (fun c => String.mk [c]))
  | some _ => .error .typeError

/-- `CCompTarget._compile_object`: derive the per-object env (deps
switch plus the subset of rule-relevant keys) and build the compile
product. -/
def compile_object (P : ProjectR) (t : TargetRec) (source : String)
    (env : EnvD) : Except EvalErr ProductRecord := do
  let ft ← file_type_map (extOf source)
  let o_env ← derive env (deps_delta env ++ [.subsetKeys (compile_keys ++ ft.2)])
  product o_env [outpathT P t o_env [source ++ ".o"]] ft.1
    (some [inpathT P t source]) none none

/-- `Target._derive_down`: identity, except that `Program` replaces the
incoming env with the project's named env derived by the extra delta. -/
def derive_down (P : ProjectR) (t : TargetRec) (e : OEnv) : Except EvalErr OEnv :=
  match t.kind with
  | .program envName extra =>
      match lookupS P.named_envs envName with
      | some base =>
          match derive base extra with
          | .ok d => .ok (some d)
          | .error er => .error er
      | none => .error (.unknownEnv envName)
  | _ => .ok e

/-- `Target._derive_local`: identity for the base class, application of
`_local_delta` for `CCompTarget`s, and substitution of the named
`default` env (derived by the local delta) for `Preprocess`.  Applying a
delta to a `None` env raises. -/
def derive_local (P : ProjectR) (t : TargetRec) (e : OEnv) : Except EvalErr OEnv :=
  match t.kind with
  | .generic => .ok e
  | .program _ _ =>
      match e with
      | none => .error .noneEnv
      | some d =>
          match derive d t.local_delta with
          | .ok d1 => .ok (some d1)
          | .error er => .error er
  | .library _ =>
      match e with
      | none => .error .noneEnv
      | some d =>
          match derive d t.local_delta with
          | .ok d1 => .ok (some d1)
          | .error er => .error er
  | .preprocess _ _ =>
      match lookupS P.named_envs "default" with
      | some base =>
          match derive base t.local_delta with
          | .ok d1 => .ok (some d1)
          | .error er => .error er
      | none => .error (.unknownEnv "default")

/-- `env_local_a.get('deps', [])`, as the list of dependency
identifiers; reading any attribute of a `None` env raises, and a
non-ident member fails at `find_target`. -/
def getDeps (e : OEnv) : Except EvalErr (List IdentS) :=
  match e with
  | none => .error .noneEnv
  | some d =>
      match lookupS d "deps" with
      | none => .ok []
      | some (.tup vs) =>
          vs.mapM (fun v =>
            match v with
            | .ident i => .ok i
            | _ => .error .badDepRef)
      | some _ => .error .badDepRef

/-- `Target._using_and_products`, by kind, translated clause by clause
from `cobble/target/c.py` (`Program` lines 86-117, `Library` lines
131-160, `Preprocess` lines 193-217) and the base default `([], [])`. -/
def using_and_products (P : ProjectR) (t : TargetRec) (e : OEnv) :
    Except EvalErr (Delta × List ProductRecord) :=
  match t.kind with
  | .generic => .ok ([], [])
  | .program _ _ =>
      match e with
      | none => .error .noneEnv
      | some env => do
          let sources ← getSources env
          let objects ← sources.mapM (fun s => compile_object P t s env)
          let obj_files := (objects.map (fun p => p.outputs)).flatten
          let program_env ← derive env
            (make_prepending_delta [("linksrcs", .tup (obj_files.map .str))])
          let program_path := outpathT P t program_env [t.name]
          let program ← product (subsetEnv program_env link_keys) [program_path]
            "link_c_program" (some obj_files) none none
          let symlink_path := leafpathT P t [t.name]
          let symlink : ProductRecord :=
            { outputs := [symlink_path], rule := "symlink_leaf",
              inputs := none, implicit := none,
              order_only := some (.tup [.str program_path]),
              vars := [("symlink_target",
                        .str (relpath program_path (dirname symlink_path)))] }
          .ok (make_appending_delta [("__implicit__", .tup [.ident t.identifier])],
               objects ++ [program, symlink])
  | .library using_delta =>
      match e with
      | none => .error .noneEnv
      | some env => do
          let sources ← getSources env
          if sources.isEmpty then .ok (using_delta, [])
          else do
            let objects ← sources.mapM (fun s => compile_object P t s env)
            let obj_files := (objects.map (fun p => p.outputs)).flatten
            let out := outpathT P t env ["lib" ++ t.name ++ ".a"]
            let lib_env ← derive env
              [.subsetKeys archive_keys, .append "inputs" (.tup (obj_files.map .str))]
            let library ← product lib_env [out] "archive_c_library"
              (some obj_files) none none
            let wa :=
              match lookupS env "whole_archive" with
              | some v => pyTruthy v
              | none => false
            let link_srcs :=
              if wa then ["-Wl,-whole-archive", out, "-Wl,-no-whole-archive"]
              else [out]
            .ok (using_delta ++
                   make_appending_delta
                     [("__implicit__", .tup [.str out]),
                      ("link_srcs", .tup (link_srcs.map .str))],
                 objects ++ [library])
  | .preprocess source output =>
      match e with
      | none => .error .noneEnv
      | some env => do
          let pp0 ← derive env (deps_delta env)
          let pp_env := subsetEnv pp0 preprocess_keys
          let output_path := genpathT P t [output]
          let mainProd : ProductRecord :=
            { outputs := [output_path], rule := "c_preprocess",
              inputs := some [inpathT P t source], implicit := none,
              order_only := none, vars := pp_env }
          let symlink_path := leafpathT P t [t.name]
          let symlink : ProductRecord :=
            { outputs := [symlink_path], rule := "symlink_leaf",
              inputs := none, implicit := some (.tup [.str output_path]),
              order_only := none,
              vars := [("symlink_target",
                        .str (relpath output_path (dirname symlink_path)))] }
          .ok ([], [mainProd, symlink])

/-! ### The memoizing recursive evaluator (`Target.evaluate`) -/

/-- The per-process memoization state: the union of every target's
`_evaluations_by_env`, keyed by `(identifier, env_up)` (identifiers are
unique across a loaded project). -/
abbrev Cache := List (DKey × (DepMap × ProdMap))

/-- The result of one evaluation: the pair of mappings. -/
abbrev EResult := DepMap × ProdMap

/-- Evaluation of the dependency list, left to right, threading the
memoization state; `ev` is the evaluator applied to each dependency. -/
def evalDeps (ev : Cache → TargetRec → OEnv → Except EvalErr (Cache × EResult)) :
    Cache → List TargetRec → OEnv → Except EvalErr (Cache × List EResult)
  | c, [], _ => .ok (c, [])
  | c, t :: ts, e => do
      let cr ← ev c t e
      let crs ← evalDeps ev cr.1 ts e
      .ok (crs.1, cr.2 :: crs.2)

/-- `reduce(lambda e, u: e.derive(u), dep_usings, env_local_a)`: fold the
using-deltas of the sorted entries over the local env. -/
def oderiveFold (e : OEnv) : List (DKey × (Nat × Delta)) → Except EvalErr OEnv
  | [] => .ok e
  | entry :: rest =>
      match e with
      | none => .error .noneEnv
      | some d =>
          match derive d entry.2.2 with
          | .ok d1 => oderiveFold (some d1) rest
          | .error er => .error er

/-- The dependency-facing first half of `Target._evaluate` (lines
255-270 of `cobble/__init__.py`): down- and local derivation, dependency
lookup and evaluation, `topo_merge` of the dep maps, union of the
product maps, and the using-delta fold producing `env_local_b`. -/
def evalCore (ev : Cache → TargetRec → OEnv → Except EvalErr (Cache × EResult))
    (P : ProjectR) (c : Cache) (t : TargetRec) (e : OEnv) :
    Except EvalErr (Cache × DepMap × ProdMap × OEnv) := do
  let env_down ← derive_down P t e
  let env_local_a ← derive_local P t env_down
  let depIds ← getDeps env_local_a
  let deps ← depIds.mapM (find_target P)
  let cdr ← evalDeps ev c deps env_down
  let dep_map := topo_merge (cdr.2.map (fun r => r.1))
  let products0 := ((cdr.2.map (fun r => r.2)).flatten).foldl
    (fun acc p => setK acc p.1 p.2) ([] : ProdMap)
  let sorted ← topo_sort dep_map
  let env_local_b ← oderiveFold env_local_a sorted
  .ok (cdr.1, dep_map, products0, env_local_b)

/-- `Target._evaluate` (lines 223-281): the core above, then the
kind-specific self production, the self-registration in the dep map
(transparent targets add themselves; opaque targets replace the merged
map by their singleton), and the product registration. -/
def evalOnce (ev : Cache → TargetRec → OEnv → Except EvalErr (Cache × EResult))
    (P : ProjectR) (c : Cache) (t : TargetRec) (e : OEnv) :
    Except EvalErr (Cache × EResult) := do
  let core ← evalCore ev P c t e
  let up ← using_and_products P t core.2.2.2
  let dm :=
    if t.transparent then setK core.2.1 (t.identifier, e) (0, up.1)
    else [((t.identifier, e), (0, up.1))]
  let ps := setK core.2.2.1 (t.identifier, e) up.2
  .ok (core.1, (dm, ps))

/-- `Target.evaluate` (lines 215-221): the memoizing facade, with a fuel
bound standing for the call-stack depth available to the recursion; a
run that cannot finish within any bound is the source's unbounded
recursion. -/
def evaluate (P : ProjectR) : Nat → Cache → TargetRec → OEnv →
    Except EvalErr (Cache × EResult)
  | 0, _, _, _ => .error .fuelOut
  | fuel + 1, c, t, e =>
      match lookupK c (t.identifier, e) with
      | some r => .ok (c, r)
      | none =>
          match evalOnce (evaluate P fuel) P c t e with
          | .ok cr => .ok (setK cr.1 (t.identifier, e) cr.2, cr.2)
          | .error er => .error er

/-! ### Key-equality and mapping lemmas -/

theorem oenvBeq_iff {e1 e2 : OEnv} :
    oenvBeq e1 e2 = true ↔ e1.map sortPairs = e2.map sortPairs := by
  cases e1 <;> cases e2 <;> simp [oenvBeq, envBeq_iff]

theorem dkeyBeq_iff {a b : DKey} :
    dkeyBeq a b = true ↔ (a.1 = b.1 ∧ a.2.map sortPairs = b.2.map sortPairs) := by
  simp [dkeyBeq, Bool.and_eq_true, beq_iff_eq, oenvBeq_iff]

theorem dkeyBeq_refl (a : DKey) : dkeyBeq a a = true :=
  dkeyBeq_iff.mpr ⟨rfl, rfl⟩

theorem dkeyBeq_eqv {k0 k1 k2 : DKey} (h : dkeyBeq k1 k2 = true) :
    dkeyBeq k0 k1 = dkeyBeq k0 k2 := by
  obtain ⟨h1, h2⟩ := dkeyBeq_iff.mp h
  have hiff : (dkeyBeq k0 k1 = true) ↔ (dkeyBeq k0 k2 = true) := by
    rw [dkeyBeq_iff, dkeyBeq_iff, h1, h2]
  cases hx : dkeyBeq k0 k1 <;> cases hy : dkeyBeq k0 k2 <;> simp_all

/-- `dkeyBeq` congruence in the first argument. -/
theorem dkeyBeq_eqv_left {k0 k1 k2 : DKey} (h : dkeyBeq k1 k2 = true) :
    dkeyBeq k1 k0 = dkeyBeq k2 k0 := by
  obtain ⟨h1, h2⟩ := dkeyBeq_iff.mp h
  have hiff : (dkeyBeq k1 k0 = true) ↔ (dkeyBeq k2 k0 = true) := by
    rw [dkeyBeq_iff, dkeyBeq_iff, h1, h2]
  cases hx : dkeyBeq k1 k0 <;> cases hy : dkeyBeq k2 k0 <;> simp_all

section KeyedLemmas

variable {V : Type}

theorem lookupK_congr {k1 k2 : DKey} (m : List (DKey × V))
    (h : dkeyBeq k1 k2 = true) : lookupK m k1 = lookupK m k2 := by
  induction m with
  | nil => rfl
  | cons p m ih =>
      simp only [lookupK]
      rw [dkeyBeq_eqv h]
      cases dkeyBeq p.1 k2
      · simpa using ih
      · rfl

theorem lookupK_setK_self (m : List (DKey × V)) (k : DKey) (v : V) :
    lookupK (setK m k v) k = some v := by
  induction m with
  | nil => simp [setK, lookupK, dkeyBeq_refl]
  | cons p m ih =>
      simp only [setK]
      cases h : dkeyBeq p.1 k
      · simpa [lookupK, h] using ih
      · simp [lookupK, h]

theorem lookupK_setK_other (m : List (DKey × V)) {kk k2 : DKey} (v : V)
    (h : dkeyBeq kk k2 = false) : lookupK (setK m kk v) k2 = lookupK m k2 := by
  induction m with
  | nil =>
      simp only [setK, lookupK]
      rw [h]
      simp
  | cons p m ih =>
      simp only [setK]
      cases h0 : dkeyBeq p.1 kk
      · simp only [Bool.false_eq_true, if_false, lookupK]
        cases h2 : dkeyBeq p.1 k2
        · simpa using ih
        · rfl
      · have hp2 : dkeyBeq p.1 k2 = false := by
          rw [dkeyBeq_eqv_left h0]
          exact h
        simp [lookupK, hp2]

end KeyedLemmas

/-! ### Characterization of `topo_merge` -/

/-- The occurrences of a key across the concatenated input items. -/
def occurrencesOf (l : List (DKey × (Nat × Delta))) (k : DKey) :
    List (DKey × (Nat × Delta)) :=
  l.filter (fun p => dkeyBeq p.1 k)

/-- The value `topo_merge`'s loop leaves for a key, given the value
already merged and the key's occurrence list. -/
def mergedVal (prior : Option (Nat × Delta)) :
    List (DKey × (Nat × Delta)) → Option (Nat × Delta)
  | [] => prior
  | o :: os =>
      mergedVal
        (some (match prior with
          | some ru => (max (o.2.1 + 1) ru.1, o.2.2)
          | none => (o.2.1 + 1, o.2.2))) os

theorem topo_fold_char (l : List (DKey × (Nat × Delta))) (m : DepMap) (k : DKey) :
    lookupK (l.foldl topoStep m) k = mergedVal (lookupK m k) (occurrencesOf l k) := by
  induction l generalizing m with
  | nil => rfl
  | cons p rest ih =>
      simp only [List.foldl_cons]
      cases hp : dkeyBeq p.1 k
      · have : occurrencesOf (p :: rest) k = occurrencesOf rest k := by
          simp [occurrencesOf, List.filter, hp]
        rw [this, ih]
        have : lookupK (topoStep m p) k = lookupK m k := by
          unfold topoStep
          exact lookupK_setK_other m _ hp
        rw [this]
      · have hocc : occurrencesOf (p :: rest) k = p :: occurrencesOf rest k := by
          simp [occurrencesOf, List.filter, hp]
        rw [hocc, ih]
        have hlk : lookupK m p.1 = lookupK m k := lookupK_congr m hp
        have hstep : lookupK (topoStep m p) k =
            some (match lookupK m k with
              | some ru => (max (p.2.1 + 1) ru.1, p.2.2)
              | none => (p.2.1 + 1, p.2.2)) := by
          unfold topoStep
          rw [hlk]
          have hset : lookupK (setK m p.1
              ((match lookupK m k with
                | some ru => max (p.2.1 + 1) ru.1
                | none => p.2.1 + 1), p.2.2)) k = some
              ((match lookupK m k with
                | some ru => max (p.2.1 + 1) ru.1
                | none => p.2.1 + 1), p.2.2) := by
            rw [← lookupK_congr _ hp]
            exact lookupK_setK_self m p.1 _
          cases hm : lookupK m k <;> simp_all
        rw [hstep]
        conv_rhs => rw [mergedVal.eq_def]

theorem mergedVal_some :
    ∀ (os : List (DKey × (Nat × Delta))) (prior : Option (Nat × Delta)), os ≠ [] →
      mergedVal prior os =
        some (((os.map (fun p => p.2.1 + 1)).foldl Nat.max
                 (match prior with | some ru => ru.1 | none => 0)),
              ((os.getLastD ((⟨"", none⟩, none), (0, []))).2.2)) := by
  intro os
  induction os with
  | nil => intro prior h; exact absurd rfl h
  | cons o os ih =>
      intro prior _
      cases os with
      | nil =>
          cases prior with
          | some ru => simp only [mergedVal, List.map_cons, List.map_nil,
              List.foldl_cons, List.foldl_nil, List.getLastD_cons,
              List.getLastD_nil, Nat.max_comm]
          | none => simp only [mergedVal, List.map_cons, List.map_nil,
              List.foldl_cons, List.foldl_nil, List.getLastD_cons,
              List.getLastD_nil, Nat.zero_max]
      | cons o2 os2 =>
          show mergedVal (some _) (o2 :: os2) = _
          rw [ih _ (by simp)]
          cases prior with
          | some ru =>
              simp only [List.map_cons, List.foldl_cons, List.getLastD_cons]
              rw [Nat.max_comm]
          | none =>
              simp only [List.map_cons, List.foldl_cons, List.getLastD_cons,
                Nat.zero_max]

/-- C3 and C9 sample data, after the diamond-merge unit test of
`cobble/test.py`: two input mappings sharing the key `(b, eb)`. -/
def envA : EnvD := [("e", .str "a")]
/-- env of entry b. -/
def envB : EnvD := [("e", .str "b")]
/-- env of entry c. -/
def envC : EnvD := [("e", .str "c")]
/-- env of entry d. -/
def envD0 : EnvD := [("e", .str "d")]
/-- first input mapping of the diamond. -/
def diamond1 : DepMap :=
  [((⟨"a", some "a"⟩, some envA), (0, [.append "u" (.str "first")])),
   ((⟨"b", some "b"⟩, some envB), (1, [.append "u" (.str "second")]))]
/-- second input mapping of the diamond. -/
def diamond2 : DepMap :=
  [((⟨"c", some "c"⟩, some envC), (0, [.append "u" (.str "third")])),
   ((⟨"d", some "d"⟩, some envD0), (1, [.append "u" (.str "fourth")])),
   ((⟨"b", some "b"⟩, some envB), (2, [.append "u" (.str "secondtoo")]))]

/-- C3: for every list of input maps and every key occurring in them,
`topo_merge` binds the key to the maximum over all its occurrences of
(incoming rank + 1): each incoming rank is incremented first, then
combined by max with the rank already recorded. -/
theorem topo_merge_rank_is_max_of_incremented (dicts : List DepMap) (k : DKey)
    (h : occurrencesOf dicts.flatten k ≠ []) :
    ∃ u, lookupK (topo_merge dicts) k =
      some ((((occurrencesOf dicts.flatten k).map (fun p => p.2.1 + 1)).foldl
               Nat.max 0), u) := by
  unfold topo_merge
  rw [topo_fold_char]
  rw [mergedVal_some _ _ h]
  exact ⟨_, rfl⟩

/-- Witness for C3 on the diamond of `cobble/test.py`: the key `(b, eb)`
occurs with incoming ranks 1 and 2, so its merged rank is
`max (1+1) (2+1) = 3`. -/
theorem topo_merge_rank_is_max_of_incremented_witness :
    ∃ u, lookupK (topo_merge [diamond1, diamond2]) (⟨"b", some "b"⟩, some envB) =
      some (3, u) :=
  topo_merge_rank_is_max_of_incremented [diamond1, diamond2]
    (⟨"b", some "b"⟩, some envB) (List.cons_ne_nil _ _)

/-- C9: when a key occurs several times across the input maps, the
merged entry keeps the using-delta of the occurrence processed last in
iteration order; only the rank is combined across occurrences. -/
theorem topo_merge_keeps_last_using (dicts : List DepMap) (k : DKey)
    (h : occurrencesOf dicts.flatten k ≠ []) :
    ∃ r, lookupK (topo_merge dicts) k =
      some (r, ((occurrencesOf dicts.flatten k).getLastD
                  ((⟨"", none⟩, none), (0, []))).2.2) := by
  unfold topo_merge
  rw [topo_fold_char]
  rw [mergedVal_some _ _ h]
  exact ⟨_, rfl⟩

/-- Witness for C9 on the diamond: `(b, eb)` occurs last in the second
mapping with using-delta "secondtoo", which the merged entry keeps even
though the maximal rank came from that same occurrence's predecessor
chain; the rank is still the combined 3. -/
theorem topo_merge_keeps_last_using_witness :
    ∃ r, lookupK (topo_merge [diamond1, diamond2]) (⟨"b", some "b"⟩, some envB) =
      some (r, [.append "u" (.str "secondtoo")]) :=
  topo_merge_keeps_last_using [diamond1, diamond2]
    (⟨"b", some "b"⟩, some envB) (List.cons_ne_nil _ _)

/-! ### Claim C5: digest stability -/

/-- C5: for Envs whose dicts are equal as sets of (key, frozen-value)
pairs — regardless of insertion order or construction history — the
digests coincide.  (Python dicts always have pairwise-distinct keys,
stated here as the `NodupKeys` hypotheses.) -/
theorem digest_stable (d1 d2 : EnvD) (h1 : NodupKeys d1) (h2 : NodupKeys d2)
    (h : ∀ p, p ∈ d1 ↔ p ∈ d2) : digest d1 = digest d2 := by
  have n1 : d1.Nodup := List.Nodup.of_map _ h1
  have n2 : d2.Nodup := List.Nodup.of_map _ h2
  have hp : d1.Perm d2 := (List.perm_ext_iff_of_nodup n1 n2).mpr h
  unfold digest fingerprint_dict
  rw [sortPairs_eq_of_perm hp h1]

/-- Witness for C5: two two-key dicts built in opposite insertion
orders share their digest. -/
theorem digest_stable_witness :
    digest [("a", .num 1), ("b", .str "x")] = digest [("b", .str "x"), ("a", .num 1)] :=
  digest_stable [("a", .num 1), ("b", .str "x")] [("b", .str "x"), ("a", .num 1)]
    (by decide) (by decide)
    (by intro p; constructor <;> intro hp <;> simp only [List.mem_cons,
      List.not_mem_nil, or_false] at hp ⊢ <;> tauto)

/-! ### Claim C7: freezing of environment values -/

/-- C7: on insertion into an env, `freeze` passes strings, numbers and
idents through unchanged, turns sequences into tuples of recursively
frozen elements, and rejects a value of any other type (or a sequence
containing one) with the "Invalid type in environment" error. -/
theorem freeze_characterization :
    (∀ s, freeze (.str s) = .ok (.str s)) ∧
    (∀ n, freeze (.num n) = .ok (.num n)) ∧
    (∀ i, freeze (.ident i) = .ok (.ident i)) ∧
    (∀ isTup vs, noOthers vs = true →
      freeze (.seq isTup vs) = .ok (.tup (vs.map stripPy))) ∧
    (∀ v, noOther v = false → ∃ t, freeze v = .error (.invalidEnvValue t)) := by
  refine ⟨fun _ => rfl, fun _ => rfl, fun _ => rfl, ?_, freeze_err⟩
  intro isTup vs h
  have := freeze_ok (.seq isTup vs) (by simpa [noOther] using h)
  rw [this, stripPy, strips_eq_map]

/-- Witness for C7: a mixed well-formed sequence freezes to the tuple of
its frozen elements. -/
theorem freeze_characterization_witness :
    freeze (.seq false [.str "a", .num 2, .seq true [.ident ⟨"p", none⟩]]) =
      .ok (.tup [.str "a", .num 2, .tup [.ident ⟨"p", none⟩]]) :=
  freeze_characterization.2.2.2.1 false
    [.str "a", .num 2, .seq true [.ident ⟨"p", none⟩]] (by decide)

/-! ### Claim C8: `product` record construction -/

section RemoveLemmas

variable {V : Type}

theorem lookupS_not_mem (d : List (String × V)) (k : String)
    (h : k ∉ d.map Prod.fst) : lookupS d k = none := by
  induction d with
  | nil => rfl
  | cons p d ih =>
      simp only [List.map_cons, List.mem_cons, not_or] at h
      simp only [lookupS]
      rw [if_neg (by simpa [beq_iff_eq] using Ne.symm h.1)]
      exact ih h.2

theorem lookupS_delS_other (d : List (String × V)) {k k2 : String}
    (h : k2 ≠ k) : lookupS (delS d k) k2 = lookupS d k2 := by
  induction d with
  | nil => rfl
  | cons p d ih =>
      simp only [delS]
      cases h0 : (p.1 == k)
      · simp only [Bool.false_eq_true, if_false, lookupS]
        cases h2 : (p.1 == k2)
        · simpa using ih
        · rfl
      · have : p.1 = k := by simpa [beq_iff_eq] using h0
        simp only [if_true, lookupS]
        rw [if_neg (by simpa [beq_iff_eq, this] using Ne.symm h)]

theorem delS_map_fst_sublist (d : List (String × V)) (k : String) :
    ((delS d k).map Prod.fst).Sublist (d.map Prod.fst) := by
  induction d with
  | nil => exact List.Sublist.refl _
  | cons p d ih =>
      simp only [delS]
      cases h0 : (p.1 == k)
      · simp only [Bool.false_eq_true, if_false, List.map_cons]
        exact List.Sublist.cons₂ _ ih
      · simp only [if_true, List.map_cons]
        exact List.sublist_cons_of_sublist _ (List.Sublist.refl _)

theorem lookupS_delS_self (d : List (String × V)) (k : String)
    (h : (d.map Prod.fst).Nodup) : lookupS (delS d k) k = none := by
  induction d with
  | nil => rfl
  | cons p d ih =>
      simp only [List.map_cons, List.nodup_cons] at h
      simp only [delS]
      cases h0 : (p.1 == k)
      · simp only [Bool.false_eq_true, if_false, lookupS, h0]
        exact ih h.2
      · have hpk : p.1 = k := by simpa [beq_iff_eq] using h0
        simp only [if_true]
        exact lookupS_not_mem d k (hpk ▸ h.1)

/-- The result of the `remove(k)` delta change on a dict. -/
def removeIf (d : List (String × V)) (k : String) : List (String × V) :=
  if (lookupS d k).isSome then delS d k else d

theorem lookupS_removeIf_self (d : List (String × V)) (k : String)
    (h : (d.map Prod.fst).Nodup) : lookupS (removeIf d k) k = none := by
  unfold removeIf
  cases hl : (lookupS d k).isSome
  · simp only [Bool.false_eq_true, if_false]
    cases hx : lookupS d k
    · rfl
    · rw [hx] at hl; cases hl
  · simp only [if_true]
    exact lookupS_delS_self d k h

theorem lookupS_removeIf_other (d : List (String × V)) {k k2 : String}
    (h : k2 ≠ k) : lookupS (removeIf d k) k2 = lookupS d k2 := by
  unfold removeIf
  cases (lookupS d k).isSome
  · simp
  · simpa using lookupS_delS_other d h

theorem removeIf_nodupKeys (d : List (String × V)) (k : String)
    (h : (d.map Prod.fst).Nodup) : ((removeIf d k).map Prod.fst).Nodup := by
  unfold removeIf
  cases (lookupS d k).isSome
  · simpa using h
  · simpa using (delS_map_fst_sublist d k).nodup h

end RemoveLemmas

theorem applyOp_remove (d : EnvD) (k : String) :
    applyOp d (.remove k) = .ok (removeIf d k) := rfl

/-- The caller-supplied list of a `product` argument: the elements of
the tuple, or the empty list for the `None` default. -/
def tupList : Option PVal → List PVal
  | some (.tup xs) => xs
  | _ => []

/-- Stated from the claim's words: the `implicit` (resp. `order_only`)
field is the caller-supplied list concatenated with
`env.get('__implicit__', [])`, and is omitted when the combined list is
empty. -/
def combinedFieldSpec (caller : List PVal) (envv : Option PVal) : Option PVal :=
  let l := caller ++ tupList envv
  if l.isEmpty then none else some (.tup l)

theorem processField_spec (v : Option PVal) (ek : String) (env : EnvD)
    (hv : v = none ∨ ∃ xs, v = some (.tup xs))
    (he : lookupS env ek = none ∨ ∃ ys, lookupS env ek = some (.tup ys)) :
    processField v ek env = .ok (combinedFieldSpec (tupList v) (lookupS env ek)) := by
  rcases hv with rfl | ⟨xs, rfl⟩ <;> rcases he with he | ⟨ys, he⟩
  · simp [processField, he, combinedFieldSpec, tupList]
  · rw [processField, he]
    cases hys : ys.isEmpty <;>
      simp [combinedFieldSpec, tupList, pyTruthy, hys]
  · rw [processField, he]
    cases hxs : xs.isEmpty <;>
      simp [combinedFieldSpec, tupList, pyAdd, pyTruthy, hxs]
  · rw [processField, he]
    cases hxy : (xs ++ ys).isEmpty <;>
      simp [combinedFieldSpec, tupList, pyAdd, pyTruthy, hxy]

/-- C8: `product` builds its record with `variables` equal to the env
with the keys `__implicit__` and `__order_only__` removed (all other
keys unchanged), with `implicit` the caller-supplied list concatenated
with `env.get('__implicit__', [])` and omitted when the combination is
empty, and with `order_only` handled analogously.  The shape hypotheses
say the two reserved keys and the caller arguments hold lists (as they
do in every use), and that the env is a well-formed dict. -/
theorem product_spec (env : EnvD) (outputs : List String) (rule : String)
    (inputs : Option (List String)) (impArg ooArg : Option PVal)
    (hN : NodupKeys env)
    (hi : impArg = none ∨ ∃ xs, impArg = some (.tup xs))
    (he : lookupS env "__implicit__" = none ∨
          ∃ ys, lookupS env "__implicit__" = some (.tup ys))
    (ho : ooArg = none ∨ ∃ xs, ooArg = some (.tup xs))
    (hoe : lookupS env "__order_only__" = none ∨
           ∃ ys, lookupS env "__order_only__" = some (.tup ys)) :
    ∃ p, product env outputs rule inputs impArg ooArg = .ok p ∧
      p.outputs = outputs ∧ p.rule = rule ∧ p.inputs = inputs ∧
      (∀ k, k ≠ "__implicit__" → k ≠ "__order_only__" →
        lookupS p.vars k = lookupS env k) ∧
      lookupS p.vars "__implicit__" = none ∧
      lookupS p.vars "__order_only__" = none ∧
      p.implicit = combinedFieldSpec (tupList impArg) (lookupS env "__implicit__") ∧
      p.order_only = combinedFieldSpec (tupList ooArg) (lookupS env "__order_only__") := by
  have hvars : derive env [.remove "__implicit__", .remove "__order_only__"] =
      .ok (removeIf (removeIf env "__implicit__") "__order_only__") := rfl
  have him := processField_spec impArg "__implicit__" env hi he
  have hoo := processField_spec ooArg "__order_only__" env ho hoe
  refine ⟨{ outputs := outputs, rule := rule, inputs := inputs,
            implicit := combinedFieldSpec (tupList impArg)
              (lookupS env "__implicit__"),
            order_only := combinedFieldSpec (tupList ooArg)
              (lookupS env "__order_only__"),
            vars := removeIf (removeIf env "__implicit__") "__order_only__" },
          ?_, rfl, rfl, rfl, ?_, ?_, ?_, rfl, rfl⟩
  · simp only [product, hvars, him, hoo, bind, Except.bind, pure, Except.pure]
  · intro k hk1 hk2
    show lookupS (removeIf (removeIf env "__implicit__") "__order_only__") k = _
    rw [lookupS_removeIf_other _ hk2, lookupS_removeIf_other _ hk1]
  · show lookupS (removeIf (removeIf env "__implicit__") "__order_only__")
      "__implicit__" = none
    rw [lookupS_removeIf_other _ (by decide)]
    exact lookupS_removeIf_self _ _ hN
  · show lookupS (removeIf (removeIf env "__implicit__") "__order_only__")
      "__order_only__" = none
    exact lookupS_removeIf_self _ _ (removeIf_nodupKeys _ _ hN)

/-- Witness for C8: a concrete env carrying `__implicit__` and an
ordinary key, a caller-supplied implicit list, and no order-only data. -/
theorem product_spec_witness :
    ∃ p, product [("cc", .str "gcc"), ("__implicit__", .tup [.str "h.h"])]
        ["o.o"] "r" (some ["i.c"]) (some (.tup [.str "x.a"])) none = .ok p ∧
      p.outputs = ["o.o"] ∧ p.rule = "r" ∧ p.inputs = some ["i.c"] ∧
      (∀ k, k ≠ "__implicit__" → k ≠ "__order_only__" →
        lookupS p.vars k =
          lookupS [("cc", .str "gcc"), ("__implicit__", .tup [.str "h.h"])] k) ∧
      lookupS p.vars "__implicit__" = none ∧
      lookupS p.vars "__order_only__" = none ∧
      p.implicit = combinedFieldSpec [.str "x.a"]
        (lookupS [("cc", .str "gcc"), ("__implicit__", .tup [.str "h.h"])]
          "__implicit__") ∧
      p.order_only = combinedFieldSpec []
        (lookupS [("cc", .str "gcc"), ("__implicit__", .tup [.str "h.h"])]
          "__order_only__") :=
  product_spec [("cc", .str "gcc"), ("__implicit__", .tup [.str "h.h"])]
    ["o.o"] "r" (some ["i.c"]) (some (.tup [.str "x.a"])) none
    (by decide) (Or.inr ⟨_, rfl⟩) (Or.inr ⟨[.str "h.h"], by decide⟩)
    (Or.inl rfl) (Or.inl (by decide))

/-! ### Claim C6: product deduplication at emission -/

section SetSLemmas

variable {V : Type}

theorem lookupS_setS_self (d : List (String × V)) (k : String) (v : V) :
    lookupS (setS d k v) k = some v := by
  induction d with
  | nil => simp [setS, lookupS]
  | cons p d ih =>
      simp only [setS]
      cases h0 : (p.1 == k)
      · simpa [lookupS, h0] using ih
      · simp [lookupS, h0]

theorem lookupS_setS_other (d : List (String × V)) {k k2 : String} (v : V)
    (h : k2 ≠ k) : lookupS (setS d k v) k2 = lookupS d k2 := by
  induction d with
  | nil =>
      simp only [setS, lookupS]
      rw [if_neg (by simpa [beq_iff_eq] using Ne.symm h)]
  | cons p d ih =>
      simp only [setS]
      cases h0 : (p.1 == k)
      · simp only [Bool.false_eq_true, if_false, lookupS]
        cases h2 : (p.1 == k2)
        · simpa using ih
        · rfl
      · have hpk : p.1 = k := by simpa [beq_iff_eq] using h0
        simp only [if_true, lookupS]
        rw [if_neg (by simpa [beq_iff_eq] using Ne.symm h),
            if_neg (by simpa [beq_iff_eq, hpk] using Ne.symm h)]

theorem lookupS_none_not_mem (d : List (String × V)) (k : String)
    (h : lookupS d k = none) : k ∉ d.map Prod.fst := by
  induction d with
  | nil => simp
  | cons p d ih =>
      simp only [lookupS] at h
      cases hx : (p.1 == k)
      · rw [hx] at h
        simp only [Bool.false_eq_true, if_false] at h
        simp only [List.map_cons, List.mem_cons, not_or]
        exact ⟨Ne.symm (beq_eq_false_iff_ne.mp hx), ih h⟩
      · rw [hx] at h
        simp at h

theorem setS_map_fst_append (d : List (String × V)) (k : String) (v : V)
    (h : lookupS d k = none) :
    (setS d k v).map Prod.fst = d.map Prod.fst ++ [k] := by
  induction d with
  | nil => simp [setS]
  | cons p d ih =>
      simp only [lookupS] at h
      cases hx : (p.1 == k)
      · rw [hx] at h
        simp only [Bool.false_eq_true, if_false] at h
        simp [setS, hx, ih h]
      · rw [hx] at h
        simp at h

end SetSLemmas

/-- The canonical tuple `prodBeq` compares. -/
def prodCanon (p : ProductRecord) :
    List String × String × Option (List String) × Option PVal × Option PVal × EnvD :=
  (p.outputs, p.rule, p.inputs, p.implicit, p.order_only, sortPairs p.vars)

theorem prodBeq_iff {p q : ProductRecord} :
    prodBeq p q = true ↔ prodCanon p = prodCanon q := by
  simp [prodBeq, prodCanon, Prod.ext_iff, and_assoc]

theorem prodBeq_refl (p : ProductRecord) : prodBeq p p = true :=
  prodBeq_iff.mpr rfl

/-- The invariant of the dedupe loop: accumulated entries survive to the
result, key-uniqueness of the accumulator is preserved, and every
processed record compares equal to the record kept under its key. -/
theorem dedupe_invariant : ∀ (ps : List ProductRecord)
    (acc res : List (String × ProductRecord)),
    dedupe ps acc = .ok res →
    (∀ k q, lookupS acc k = some q → lookupS res k = some q) ∧
    ((acc.map Prod.fst).Nodup → (res.map Prod.fst).Nodup) ∧
    (∀ p ∈ ps, ∃ q, lookupS res (productKey p) = some q ∧ prodBeq p q = true) := by
  intro ps
  induction ps with
  | nil =>
      intro acc res h
      cases h
      exact ⟨fun _ _ hq => hq, fun hn => hn, by simp⟩
  | cons p ps ih =>
      intro acc res h
      simp only [dedupe] at h
      rcases hl : lookupS acc (productKey p) with _ | q0
      · rw [hl] at h
        simp only [] at h
        obtain ⟨ha, hb, hc⟩ := ih (setS acc (productKey p) p) res h
        refine ⟨?_, ?_, ?_⟩
        · intro k q hq
          apply ha
          rcases Decidable.em (k = productKey p) with he | hne
          · rw [he, hl] at hq; cases hq
          · rw [lookupS_setS_other _ _ hne]; exact hq
        · intro hn
          apply hb
          rw [setS_map_fst_append _ _ _ hl]
          have : productKey p ∉ acc.map Prod.fst := lookupS_none_not_mem _ _ hl
          simp [List.nodup_append, hn, this]
        · intro p2 hp2
          rcases List.mem_cons.mp hp2 with hp2 | hp2
          · refine ⟨p, ?_, ?_⟩
            · subst hp2
              exact ha _ _ (lookupS_setS_self _ _ _)
            · subst hp2
              exact prodBeq_refl _
          · exact hc p2 hp2
      · rw [hl] at h
        simp only [] at h
        cases hbq : prodBeq p q0
        · rw [hbq] at h
          simp at h
        · rw [hbq] at h
          simp only [if_true] at h
          obtain ⟨ha, hb, hc⟩ := ih acc res h
          refine ⟨ha, hb, ?_⟩
          intro p2 hp2
          rcases List.mem_cons.mp hp2 with hp2 | hp2
          · subst hp2
            exact ⟨q0, ha _ _ hl, hbq⟩
          · exact hc p2 hp2

/-- Amended C6: during emission, any two records whose *sorted output
sets coincide* (the normalized key) are equal as Python dicts when
deduplication succeeds — otherwise emission fails with the
incompatible-duplicate-products error — and the result keeps exactly one
record per key.  (Overlap short of equality is not detected; see the
counterexample.) -/
theorem dedupe_key_equal_or_fail (ps : List ProductRecord)
    (res : List (String × ProductRecord)) (h : dedupe ps [] = .ok res) :
    (∀ p ∈ ps, ∀ q ∈ ps, productKey p = productKey q → prodBeq p q = true) ∧
    (res.map Prod.fst).Nodup := by
  obtain ⟨_, hb, hc⟩ := dedupe_invariant ps [] res h
  refine ⟨?_, hb (by simp)⟩
  intro p hp q hq hk
  obtain ⟨rp, hrp, hbp⟩ := hc p hp
  obtain ⟨rq, hrq, hbq⟩ := hc q hq
  rw [hk, hrq] at hrp
  cases hrp
  exact prodBeq_iff.mpr ((prodBeq_iff.mp hbp).trans (prodBeq_iff.mp hbq).symm)

/-- First record of the C6 counterexample: outputs overlap `cex2`'s but
are not equal to them. -/
def cex1 : ProductRecord :=
  { outputs := ["a", "b"], rule := "r1", inputs := none,
    implicit := none, order_only := none, vars := [] }
/-- Second record of the C6 counterexample. -/
def cex2 : ProductRecord :=
  { outputs := ["a"], rule := "r2", inputs := none,
    implicit := none, order_only := none, vars := [] }

/-- Counterexample to C6 as stated: two records with *overlapping* (but
not equal) output lists and different rules pass deduplication without
any error, both being kept — the dedupe key is the full sorted output
list, so mere overlap is not detected. -/
theorem dedupe_overlap_not_detected :
    dedupe [cex1, cex2] [] = .ok [("a b", cex1), ("a", cex2)] ∧
    "a" ∈ cex1.outputs ∧ "a" ∈ cex2.outputs ∧
    cex1.rule ≠ cex2.rule ∧ prodBeq cex1 cex2 = false := by
  refine ⟨rfl, by decide, by decide, by decide, by decide⟩

/-- Witness for the amended C6: a record stored under its key and a
field-order variant of it (equal as Python dicts) dedupe to a single
entry, and the theorem yields their equality. -/
theorem dedupe_key_equal_or_fail_witness :
    prodBeq
      { outputs := ["o"], rule := "r", inputs := none, implicit := none,
        order_only := none,
        vars := [("a", .num 1), ("b", .num 2)] }
      { outputs := ["o"], rule := "r", inputs := none, implicit := none,
        order_only := none,
        vars := [("b", .num 2), ("a", .num 1)] } = true :=
  (dedupe_key_equal_or_fail
    [{ outputs := ["o"], rule := "r", inputs := none, implicit := none,
       order_only := none, vars := [("a", .num 1), ("b", .num 2)] },
     { outputs := ["o"], rule := "r", inputs := none, implicit := none,
       order_only := none, vars := [("b", .num 2), ("a", .num 1)] }]
    [("o",
      { outputs := ["o"], rule := "r", inputs := none, implicit := none,
        order_only := none, vars := [("a", .num 1), ("b", .num 2)] })]
    rfl).1 _ (by simp) _ (by simp) (by decide)

/-! ### Claim C1: cycle handling -/

/-- Library target X of the cyclic pair: its local delta declares Y as a
dependency. -/
def cycX : TargetRec :=
  { pkg := "p", name := "x", kind := .library [],
    local_delta := [.append "deps" (.tup [.ident ⟨"p", some "y"⟩])] }

/-- Library target Y of the cyclic pair: it declares X back. -/
def cycY : TargetRec :=
  { pkg := "p", name := "y", kind := .library [],
    local_delta := [.append "deps" (.tup [.ident ⟨"p", some "x"⟩])] }

/-- A project whose two targets form a dependency cycle. -/
def pCyc : ProjectR :=
  { root := "R", outroot := "O", named_envs := [], targets := [cycX, cycY] }

/-- Counterexample to C1 as stated: on the two-target cycle X↔Y the
evaluator does not fail with any cycle error — there is no cycle error
in the code, and no in-progress set is tracked — instead the recursion
only stops by exhausting the call budget (here 6).  The first two
conjuncts exhibit the cyclic `deps` entries the evaluator reads. -/
theorem cycle_fuelOut_at_6 :
    (do
      let a ← derive_local pCyc cycX (some [])
      getDeps a) = .ok [cycY.identifier] ∧
    (do
      let a ← derive_local pCyc cycY (some [])
      getDeps a) = .ok [cycX.identifier] ∧
    evaluate pCyc 6 [] cycX (some []) = .error .fuelOut := by
  exact ⟨rfl, rfl, rfl⟩

/-- Amended C1: re-entering a `(target, env_up)` pair that is currently
being evaluated is *not* detected.  `Target.evaluate` tracks no
currently-being-evaluated set and its memo entry is only written after
`_evaluate` returns, so a dependency cycle re-enters `_evaluate` with an
unchanged cache and recursion never terminates: for *every* fuel bound,
evaluation of either member of the cycle exhausts the bound, and the
evaluator's error repertoire contains no cycle error at all. -/
theorem cycle_not_detected_diverges :
    ∀ fuel, evaluate pCyc fuel [] cycX (some []) = .error .fuelOut ∧
            evaluate pCyc fuel [] cycY (some []) = .error .fuelOut := by
  intro fuel
  induction fuel with
  | zero => exact ⟨rfl, rfl⟩
  | succ fuel ih =>
      constructor
      · have hone : evalOnce (evaluate pCyc fuel) pCyc [] cycX (some []) =
            .error .fuelOut := by
          obtain ⟨k, hk⟩ : ∃ k, evalOnce (evaluate pCyc fuel) pCyc [] cycX (some []) =
              Except.bind (evalCore (evaluate pCyc fuel) pCyc [] cycX (some [])) k :=
            ⟨_, rfl⟩
          obtain ⟨f, hf⟩ : ∃ f, evalCore (evaluate pCyc fuel) pCyc [] cycX (some []) =
              Except.bind (evalDeps (evaluate pCyc fuel) [] [cycY] (some [])) f :=
            ⟨_, rfl⟩
          obtain ⟨g, hg⟩ : ∃ g, evalDeps (evaluate pCyc fuel) [] [cycY] (some []) =
              Except.bind (evaluate pCyc fuel [] cycY (some [])) g := ⟨_, rfl⟩
          rw [hk, hf, hg, ih.2]
          rfl
        show evaluate pCyc (fuel + 1) [] cycX (some []) = .error .fuelOut
        simp only [evaluate, lookupK]
        rw [hone]
      · have hone : evalOnce (evaluate pCyc fuel) pCyc [] cycY (some []) =
            .error .fuelOut := by
          obtain ⟨k, hk⟩ : ∃ k, evalOnce (evaluate pCyc fuel) pCyc [] cycY (some []) =
              Except.bind (evalCore (evaluate pCyc fuel) pCyc [] cycY (some [])) k :=
            ⟨_, rfl⟩
          obtain ⟨f, hf⟩ : ∃ f, evalCore (evaluate pCyc fuel) pCyc [] cycY (some []) =
              Except.bind (evalDeps (evaluate pCyc fuel) [] [cycX] (some [])) f :=
            ⟨_, rfl⟩
          obtain ⟨g, hg⟩ : ∃ g, evalDeps (evaluate pCyc fuel) [] [cycX] (some []) =
              Except.bind (evaluate pCyc fuel [] cycX (some [])) g := ⟨_, rfl⟩
          rw [hk, hf, hg, ih.1]
          rfl
        show evaluate pCyc (fuel + 1) [] cycY (some []) = .error .fuelOut
        simp only [evaluate, lookupK]
        rw [hone]

/-! ### Claim C4: memoized evaluation is deterministic -/

/-- `c2` contains every memo entry of `c1` (the caches only grow during
a process, so any later state is such an extension). -/
def CacheSub (c1 c2 : Cache) : Prop :=
  ∀ k v, lookupK c1 k = some v → lookupK c2 k = some v

theorem cacheSub_refl (c : Cache) : CacheSub c c := fun _ _ h => h

theorem cacheSub_trans {a b c : Cache} (h1 : CacheSub a b) (h2 : CacheSub b c) :
    CacheSub a c := fun k v h => h2 k v (h1 k v h)

theorem except_bind_ok {α β : Type} {x : Except EvalErr α}
    {f : α → Except EvalErr β} {b : β} (h : (x >>= f) = .ok b) :
    ∃ a, x = .ok a ∧ f a = .ok b := by
  cases x with
  | error e => exact absurd h (by simp [Bind.bind, Except.bind])
  | ok a => exact ⟨a, rfl, by simpa [Bind.bind, Except.bind] using h⟩

theorem evalDeps_mono
    (ev : Cache → TargetRec → OEnv → Except EvalErr (Cache × EResult))
    (hev : ∀ c t e c' r, ev c t e = .ok (c', r) → CacheSub c c') :
    ∀ (ts : List TargetRec) (c : Cache) (e : OEnv) (c' : Cache)
      (rs : List EResult),
      evalDeps ev c ts e = .ok (c', rs) → CacheSub c c' := by
  intro ts
  induction ts with
  | nil =>
      intro c e c' rs h
      cases h
      exact cacheSub_refl c
  | cons t ts ih =>
      intro c e c' rs h
      simp only [evalDeps] at h
      obtain ⟨cr, hcr, h⟩ := except_bind_ok h
      obtain ⟨crs, hcrs, h⟩ := except_bind_ok h
      cases h
      exact cacheSub_trans (hev _ _ _ _ _ (by rw [hcr]))
        (ih cr.1 e crs.1 crs.2 (by rw [hcrs]))

theorem evalCore_mono
    (ev : Cache → TargetRec → OEnv → Except EvalErr (Cache × EResult))
    (hev : ∀ c t e c' r, ev c t e = .ok (c', r) → CacheSub c c')
    (P : ProjectR) (c : Cache) (t : TargetRec) (e : OEnv)
    (c' : Cache) (dm : DepMap) (ps : ProdMap) (elb : OEnv)
    (h : evalCore ev P c t e = .ok (c', dm, ps, elb)) : CacheSub c c' := by
  simp only [evalCore] at h
  obtain ⟨ed, hed, h⟩ := except_bind_ok h
  obtain ⟨ela, hela, h⟩ := except_bind_ok h
  obtain ⟨ids, hids, h⟩ := except_bind_ok h
  obtain ⟨deps, hdeps, h⟩ := except_bind_ok h
  obtain ⟨cdr, hcdr, h⟩ := except_bind_ok h
  obtain ⟨srt, hsrt, h⟩ := except_bind_ok h
  obtain ⟨elb2, helb2, h⟩ := except_bind_ok h
  cases h
  exact evalDeps_mono ev hev deps c ed cdr.1 cdr.2 (by rw [hcdr])

theorem evalOnce_mono
    (ev : Cache → TargetRec → OEnv → Except EvalErr (Cache × EResult))
    (hev : ∀ c t e c' r, ev c t e = .ok (c', r) → CacheSub c c')
    (P : ProjectR) (c : Cache) (t : TargetRec) (e : OEnv)
    (c' : Cache) (r : EResult)
    (h : evalOnce ev P c t e = .ok (c', r)) : CacheSub c c' := by
  simp only [evalOnce] at h
  obtain ⟨core, hcore, h⟩ := except_bind_ok h
  obtain ⟨up, hup, h⟩ := except_bind_ok h
  cases h
  exact evalCore_mono ev hev P c t e core.1 core.2.1 core.2.2.1 core.2.2.2
    (by rw [hcore])

theorem evaluate_mono (P : ProjectR) :
    ∀ (fuel : Nat) (c : Cache) (t : TargetRec) (e : OEnv) (c' : Cache)
      (r : EResult), evaluate P fuel c t e = .ok (c', r) → CacheSub c c' := by
  intro fuel
  induction fuel with
  | zero => intro c t e c' r h; cases h
  | succ fuel ih =>
      intro c t e c' r h
      simp only [evaluate] at h
      rcases hl : lookupK c (t.identifier, e) with _ | r0
      · rw [hl] at h
        rcases ho : evalOnce (evaluate P fuel) P c t e with er | cr
        · rw [ho] at h; cases h
        · rw [ho] at h
          cases h
          have hmono : CacheSub c cr.1 :=
            evalOnce_mono (evaluate P fuel) ih P c t e cr.1 cr.2 ho
          intro k v hk
          have hv : lookupK cr.1 k = some v := hmono k v hk
          have hne : dkeyBeq (t.identifier, e) k = false := by
            cases hbe : dkeyBeq (t.identifier, e) k
            · rfl
            · have : lookupK c (t.identifier, e) = some v := by
                rw [lookupK_congr c hbe]; exact hk
              rw [hl] at this; cases this
          rw [lookupK_setK_other cr.1 cr.2 hne]
          exact hv
      · rw [hl] at h
        cases h
        exact cacheSub_refl _

/-- After a successful call the memo holds the returned result. -/
theorem evaluate_caches (P : ProjectR) (fuel : Nat) (c : Cache)
    (t : TargetRec) (e : OEnv) (c1 : Cache) (r1 : EResult)
    (h : evaluate P fuel c t e = .ok (c1, r1)) :
    lookupK c1 (t.identifier, e) = some r1 := by
  cases fuel with
  | zero => cases h
  | succ fuel =>
      simp only [evaluate] at h
      rcases hl : lookupK c (t.identifier, e) with _ | r0
      · rw [hl] at h
        rcases ho : evalOnce (evaluate P fuel) P c t e with er | cr
        · rw [ho] at h; cases h
        · rw [ho] at h
          cases h
          exact lookupK_setK_self cr.1 _ cr.2
      · rw [hl] at h
        cases h
        exact hl

/-- C4: evaluation is deterministic within a process lifetime.  A first
call `evaluate P fuel c t e` that returns `(c1, r1)` (i) only grows the
memo (`CacheSub c c1`), and (ii) any later call on the same `(t, e)`,
from any state `c2` extending `c1` — in particular `c1` itself or the
state left by any interleaved evaluations — returns the memoized `r1`
without touching the state. -/
theorem evaluate_deterministic (P : ProjectR) (fuel fuel2 : Nat)
    (c c1 c2 c3 : Cache) (t : TargetRec) (e : OEnv) (r1 r2 : EResult)
    (h1 : evaluate P fuel c t e = .ok (c1, r1))
    (h2 : CacheSub c1 c2)
    (h3 : evaluate P fuel2 c2 t e = .ok (c3, r2)) :
    r2 = r1 ∧ c3 = c2 ∧ CacheSub c c1 := by
  have hcached : lookupK c2 (t.identifier, e) = some r1 :=
    h2 _ _ (evaluate_caches P fuel c t e c1 r1 h1)
  cases fuel2 with
  | zero => cases h3
  | succ fuel2 =>
      simp only [evaluate, hcached] at h3
      cases h3
      exact ⟨rfl, rfl, evaluate_mono P fuel c t e c1 r1 h1⟩

/-- A minimal project for the C4 witness: one base-class target. -/
def detT : TargetRec := { pkg := "p", name := "g", kind := .generic, local_delta := [] }
/-- Its project. -/
def detP : ProjectR := { root := "R", outroot := "O", named_envs := [], targets := [detT] }
/-- The first evaluation of the witness target. -/
def detRun : Except EvalErr (Cache × EResult) := evaluate detP 3 [] detT (some [])
/-- The memo state the first call leaves. -/
def detCache : Cache :=
  match detRun with
  | .ok p => p.1
  | .error _ => []
/-- The result the first call returns. -/
def detRes : EResult :=
  match detRun with
  | .ok p => p.2
  | .error _ => ([], [])

/-- Witness for C4: the second call (with a different fuel bound) on the
state left by the first returns the same result and leaves the state
unchanged. -/
theorem evaluate_deterministic_witness :
    detRes = detRes ∧ detCache = detCache ∧ CacheSub [] detCache :=
  evaluate_deterministic detP 3 5 [] detCache detCache detCache detT (some [])
    detRes detRes rfl (cacheSub_refl detCache) rfl

/-! ### Claim C2: self-registration in the returned dep map -/

/-- C2: after the dependency-facing half of `_evaluate` produced the
merged dep map `M` and the using-delta `u` from the kind-specific logic
on `env_local_b`, the evaluator registers itself as follows: a
transparent target (the default) adds `(self, env_up) -> (0, u)` to `M`;
a non-transparent target discards `M` and returns exactly the singleton
`{(self, env_up) -> (0, u)}`.  Either way the self entry carries rank 0
and the freshly computed using-delta, and the products map gains the
target's own products under `(self, env_up)`. -/
theorem evalOnce_self_registration
    (ev : Cache → TargetRec → OEnv → Except EvalErr (Cache × EResult))
    (P : ProjectR) (c : Cache) (t : TargetRec) (e : OEnv)
    (c' : Cache) (dm : DepMap) (ps : ProdMap)
    (h : evalOnce ev P c t e = .ok (c', (dm, ps))) :
    ∃ c0 M ps0 elb u lp,
      evalCore ev P c t e = .ok (c0, M, ps0, elb) ∧
      using_and_products P t elb = .ok (u, lp) ∧
      c' = c0 ∧
      dm = (if t.transparent then setK M (t.identifier, e) (0, u)
            else [((t.identifier, e), (0, u))]) ∧
      lookupK dm (t.identifier, e) = some (0, u) ∧
      (t.transparent = false → dm = [((t.identifier, e), (0, u))]) ∧
      ps = setK ps0 (t.identifier, e) lp := by
  simp only [evalOnce] at h
  obtain ⟨core, hcore, h⟩ := except_bind_ok h
  obtain ⟨up, hup, h⟩ := except_bind_ok h
  cases h
  refine ⟨core.1, core.2.1, core.2.2.1, core.2.2.2, up.1, up.2,
    by rw [hcore], by rw [hup], rfl, rfl, ?_, ?_, rfl⟩
  · cases ht : t.transparent
    · simp only [ht, Bool.false_eq_true, if_false, lookupK, dkeyBeq_refl, if_true]
    · simp only [ht, if_true]
      exact lookupK_setK_self _ _ _
  · intro ht
    simp only [ht, Bool.false_eq_true, if_false]

/-- The C2 witness project: a `Program` (non-transparent) with no
sources and no dependencies, over an empty named environment. -/
def regProg : TargetRec :=
  { pkg := "pp", name := "m", kind := .program "host" [], local_delta := [] }
/-- Its project. -/
def regP : ProjectR :=
  { root := "R", outroot := "O", named_envs := [("host", [])],
    targets := [regProg] }
/-- One `_evaluate` body run of the witness program. -/
def regRun : Except EvalErr (Cache × EResult) :=
  evalOnce (evaluate regP 3) regP [] regProg none
/-- The memo state it leaves. -/
def regCache : Cache :=
  match regRun with
  | .ok p => p.1
  | .error _ => []
/-- The dep map it returns. -/
def regDm : DepMap :=
  match regRun with
  | .ok p => p.2.1
  | .error _ => []
/-- The products map it returns. -/
def regPs : ProdMap :=
  match regRun with
  | .ok p => p.2.2
  | .error _ => []

/-- Witness for C2 at the opaque (`Program`) case: the returned dep map
is exactly the rank-0 self singleton. -/
theorem evalOnce_self_registration_witness :
    ∃ c0 M ps0 elb u lp,
      evalCore (evaluate regP 3) regP [] regProg none = .ok (c0, M, ps0, elb) ∧
      using_and_products regP regProg elb = .ok (u, lp) ∧
      regCache = c0 ∧
      regDm = (if regProg.transparent
               then setK M (regProg.identifier, none) (0, u)
               else [((regProg.identifier, none), (0, u))]) ∧
      lookupK regDm (regProg.identifier, none) = some (0, u) ∧
      (regProg.transparent = false →
        regDm = [((regProg.identifier, none), (0, u))]) ∧
      regPs = setK ps0 (regProg.identifier, none) lp :=
  evalOnce_self_registration (evaluate regP 3) regP [] regProg none
    regCache regDm regPs rfl

/-! ### Claim C10: env-independence of Preprocess evaluation -/

theorem derive_local_preprocess_const (P : ProjectR) (t : TargetRec)
    {src out : String} (hk : t.kind = .preprocess src out) (e : OEnv) :
    derive_local P t e = derive_local P t none := by
  simp only [derive_local, hk]

theorem derive_down_preprocess (P : ProjectR) (t : TargetRec)
    {src out : String} (hk : t.kind = .preprocess src out) (e : OEnv) :
    derive_down P t e = .ok e := by
  simp only [derive_down, hk]

theorem transparent_preprocess (t : TargetRec) {src out : String}
    (hk : t.kind = .preprocess src out) : t.transparent = true := by
  simp only [TargetRec.transparent, hk]

theorem using_preprocess_fst (P : ProjectR) (t : TargetRec)
    {src out : String} (hk : t.kind = .preprocess src out) (elb : OEnv)
    {u : Delta} {lp : List ProductRecord}
    (h : using_and_products P t elb = .ok (u, lp)) : u = [] := by
  simp only [using_and_products, hk] at h
  cases elb with
  | none => cases h
  | some env =>
      obtain ⟨pp0, hpp0, h⟩ := except_bind_ok h
      cases h
      rfl

/-- The dependency-facing half of `_evaluate`, specialized to a
`Preprocess` target whose (env-independent) evaluation environment
declares no dependencies: it leaves the cache alone, merges nothing and
returns the local environment. -/
theorem evalCore_preprocess_nodeps
    (ev : Cache → TargetRec → OEnv → Except EvalErr (Cache × EResult))
    (P : ProjectR) (c : Cache) (t : TargetRec) {src out : String}
    (hk : t.kind = .preprocess src out)
    (hdeps : (do
      let a ← derive_local P t none
      getDeps a) = .ok ([] : List IdentS))
    (e : OEnv) (c0 : Cache) (M : DepMap) (ps0 : ProdMap) (elb : OEnv)
    (h : evalCore ev P c t e = .ok (c0, M, ps0, elb)) :
    c0 = c ∧ M = [] ∧ ps0 = [] ∧ derive_local P t none = .ok elb := by
  obtain ⟨a0, ha0, hget⟩ := except_bind_ok hdeps
  simp only [evalCore] at h
  obtain ⟨ed, hed, h⟩ := except_bind_ok h
  obtain ⟨ela, hela, h⟩ := except_bind_ok h
  rw [derive_down_preprocess P t hk e] at hed
  cases hed
  rw [derive_local_preprocess_const P t hk, ha0] at hela
  cases hela
  obtain ⟨ids, hids, h⟩ := except_bind_ok h
  rw [hget] at hids
  cases hids
  obtain ⟨deps, hdeps2, h⟩ := except_bind_ok h
  cases hdeps2
  obtain ⟨cdr, hcdr, h⟩ := except_bind_ok h
  cases hcdr
  obtain ⟨srt, hsrt, h⟩ := except_bind_ok h
  cases hsrt
  obtain ⟨elb2, helb2, h⟩ := except_bind_ok h
  cases helb2
  cases h
  exact ⟨rfl, rfl, rfl, ha0⟩

/-- Amended C10: for a `Preprocess` target whose evaluation environment
— always the project's named `default` environment derived by the local
delta, never the incoming environment — declares no dependencies, the
using-delta (the empty delta) and the list of product records are
independent of the incoming environment: evaluations under any two
up-environments register equal product lists and rank-0 empty
using-deltas.  (With dependencies declared, the incoming environment is
passed to the dependencies, and their using-deltas can leak into the
preprocess keys; see the counterexample.) -/
theorem preprocess_no_deps_env_independent
    (ev1 ev2 : Cache → TargetRec → OEnv → Except EvalErr (Cache × EResult))
    (P : ProjectR) (ca cb : Cache) (t : TargetRec) (src out : String)
    (e1 e2 : OEnv) (c1 c2 : Cache) (dm1 dm2 : DepMap) (ps1 ps2 : ProdMap)
    (hk : t.kind = .preprocess src out)
    (hdeps : (do
      let a ← derive_local P t none
      getDeps a) = .ok ([] : List IdentS))
    (h1 : evalOnce ev1 P ca t e1 = .ok (c1, (dm1, ps1)))
    (h2 : evalOnce ev2 P cb t e2 = .ok (c2, (dm2, ps2))) :
    lookupK ps1 (t.identifier, e1) = lookupK ps2 (t.identifier, e2) ∧
    lookupK dm1 (t.identifier, e1) = some (0, ([] : Delta)) ∧
    lookupK dm2 (t.identifier, e2) = some (0, ([] : Delta)) := by
  simp only [evalOnce] at h1 h2
  obtain ⟨core1, hcore1, h1⟩ := except_bind_ok h1
  obtain ⟨up1, hup1, h1⟩ := except_bind_ok h1
  cases h1
  obtain ⟨core2, hcore2, h2⟩ := except_bind_ok h2
  obtain ⟨up2, hup2, h2⟩ := except_bind_ok h2
  cases h2
  obtain ⟨hc1, hM1, hps1, helb1⟩ :=
    evalCore_preprocess_nodeps ev1 P ca t hk hdeps e1 core1.1 core1.2.1
      core1.2.2.1 core1.2.2.2 hcore1
  obtain ⟨hc2, hM2, hps2, helb2⟩ :=
    evalCore_preprocess_nodeps ev2 P cb t hk hdeps e2 core2.1 core2.2.1
      core2.2.2.1 core2.2.2.2 hcore2
  have helbeq : core1.2.2.2 = core2.2.2.2 :=
    Except.ok.inj (helb1.symm.trans helb2)
  have hupeq : up1 = up2 := by
    have hh : (Except.ok up1 : Except EvalErr (Delta × List ProductRecord)) =
        Except.ok up2 := by
      rw [← hup1, helbeq, hup2]
    exact Except.ok.inj hh
  have hu1 : up1.1 = [] := using_preprocess_fst P t hk core1.2.2.2 hup1
  have htr := transparent_preprocess t hk
  refine ⟨?_, ?_, ?_⟩
  · rw [hps1, hps2, hupeq]
    show lookupK (setK [] (t.identifier, e1) up2.2) (t.identifier, e1) =
      lookupK (setK [] (t.identifier, e2) up2.2) (t.identifier, e2)
    rw [lookupK_setK_self, lookupK_setK_self]
  · rw [hM1, htr]
    simp only [if_true]
    rw [show up1.1 = ([] : Delta) from hu1]
    exact lookupK_setK_self _ _ _
  · rw [hM2, htr]
    simp only [if_true]
    have hu2 : up2.1 = [] := by rw [← hupeq]; exact hu1
    rw [show up2.1 = ([] : Delta) from hu2]
    exact lookupK_setK_self _ _ _


/-- Substring search helper (structural, kernel-computable). -/
def strContainsGo (sub : List Char) : List Char → Bool
  | [] => sub.isPrefixOf []
  | c :: t => sub.isPrefixOf (c :: t) || strContainsGo sub t

/-- Whether `sub` occurs inside `s`. -/
def strContains (s sub : String) : Bool := strContainsGo sub.data s.data

/-- The predicate of the counterexample's `extend_when` conditional: it
fires exactly when the first `link_srcs` entry of the current dict — an
archive path carrying the dependency's env digest — names the digest of
the `marker = "1"` up-environment.  `extend_when` accepts arbitrary
user predicates (`cobble/target/c.py` lines 162-176). -/
def markerPred : EnvD → Bool := fun d =>
  match lookupS d "link_srcs" with
  | some (.tup (PVal.str s :: _)) => strContains s "marker=s1"
  | _ => false

/-- Library `//libb:b` of the counterexample: one C source, so its
using-delta injects its digest-qualified archive path into
`__implicit__`/`link_srcs`. -/
def cexB : TargetRec :=
  { pkg := "libb", name := "b", kind := .library [],
    local_delta := [.append "sources" (.tup [.str "x.c"]),
                    .append "deps" (.tup [])] }

/-- Library `//libz:z` of the counterexample: no sources, and an
`extend_when`-style conditional using-delta that appends a preprocess
key (`cpp_flags`) when `markerPred` fires. -/
def cexA : TargetRec :=
  { pkg := "libz", name := "z",
    kind := .library
      [.conditional (.append "cpp_flags" (.tup [.str "-DX"])) markerPred],
    local_delta := [.append "sources" (.tup []), .append "deps" (.tup [])] }

/-- The `Preprocess` target of the counterexample, with the two
libraries declared as dependencies through its local delta. -/
def cexP : TargetRec :=
  { pkg := "pp", name := "p", kind := .preprocess "f.c" "f.i",
    local_delta := [.append "deps"
      (.tup [.ident ⟨"libb", some "b"⟩, .ident ⟨"libz", some "z"⟩])] }

/-- The counterexample project. -/
def cexProj : ProjectR :=
  { root := "R", outroot := "O", named_envs := [("default", [])],
    targets := [cexB, cexA, cexP] }

/-- Evaluate the preprocess target under the up-environment whose
`marker` key is the given string. -/
def cexRunP (m : String) : Except EvalErr (Cache × EResult) :=
  evaluate cexProj 6 [] cexP (some [("marker", .str m)])

/-- The product list the preprocess target registers for itself. -/
def cexProdsOf (m : String) : Option (List ProductRecord) :=
  match cexRunP m with
  | .ok (_, (_, ps)) => lookupK ps (cexP.identifier, some [("marker", .str m)])
  | .error _ => none

/-- Counterexample to C10 as stated: a `Preprocess` target with
dependencies.  Its own evaluation environment is the `default` env and
ignores the up-environment, but its dependencies are evaluated *in* the
up-environment (`env_down`), and their using-deltas feed `env_local_b`:
library `b`'s using-delta carries its digest-qualified archive path, and
library `z`'s conditional using-delta turns that env-dependent path into
an env-dependent `cpp_flags` — a preprocess key — so the preprocess
target's own product list differs between two up-environments. -/
theorem preprocess_env_leak_counterexample :
    cexP.kind = .preprocess "f.c" "f.i" ∧
    (cexProdsOf "1").isSome = true ∧ (cexProdsOf "2").isSome = true ∧
    cexProdsOf "1" ≠ cexProdsOf "2" := by
  refine ⟨rfl, by decide, by decide, by decide⟩

/-- The C10 witness target: a dependency-free preprocess step. -/
def wPre : TargetRec :=
  { pkg := "w", name := "w", kind := .preprocess "f.c" "f.i",
    local_delta := [] }
/-- Its project. -/
def wProj : ProjectR :=
  { root := "R", outroot := "O", named_envs := [("default", [])],
    targets := [wPre] }
/-- Its `_evaluate` body under the first up-environment. -/
def wRun1 : Except EvalErr (Cache × EResult) :=
  evalOnce (evaluate wProj 3) wProj [] wPre (some [("q", .str "1")])
/-- Its `_evaluate` body under the second up-environment. -/
def wRun2 : Except EvalErr (Cache × EResult) :=
  evalOnce (evaluate wProj 3) wProj [] wPre (some [("q", .str "2")])
/-- Cache of the first run. -/
def wC1 : Cache := match wRun1 with | .ok p => p.1 | .error _ => []
/-- Dep map of the first run. -/
def wDm1 : DepMap := match wRun1 with | .ok p => p.2.1 | .error _ => []
/-- Products map of the first run. -/
def wPs1 : ProdMap := match wRun1 with | .ok p => p.2.2 | .error _ => []
/-- Cache of the second run. -/
def wC2 : Cache := match wRun2 with | .ok p => p.1 | .error _ => []
/-- Dep map of the second run. -/
def wDm2 : DepMap := match wRun2 with | .ok p => p.2.1 | .error _ => []
/-- Products map of the second run. -/
def wPs2 : ProdMap := match wRun2 with | .ok p => p.2.2 | .error _ => []

/-- Witness for the amended C10: the dependency-free preprocess target
registers the same product list and the rank-0 empty using-delta under
two different up-environments. -/
theorem preprocess_no_deps_env_independent_witness :
    lookupK wPs1 (wPre.identifier, some [("q", .str "1")]) =
      lookupK wPs2 (wPre.identifier, some [("q", .str "2")]) ∧
    lookupK wDm1 (wPre.identifier, some [("q", .str "1")]) =
      some (0, ([] : Delta)) ∧
    lookupK wDm2 (wPre.identifier, some [("q", .str "2")]) =
      some (0, ([] : Delta)) :=
  preprocess_no_deps_env_independent (evaluate wProj 3) (evaluate wProj 3)
    wProj [] [] wPre "f.c" "f.i" (some [("q", .str "1")])
    (some [("q", .str "2")]) wC1 wC2 wDm1 wDm2 wPs1 wPs2 rfl rfl rfl rfl

end Cobble
